import Mathlib

/-!
Verification development for the Word/Markdown table converter.

The JavaScript sources are embedded shallowly: JS strings become `List Char`,
DOM table elements become explicit structures, in-place mutation becomes
functional update.  Each definition mirrors one source function
(`tableModel.js`, `markdownToHtml.js`, `htmlToMarkdown.js`).
-/

set_option maxRecDepth 4000

abbrev Str := List Char

def strOf (s : String) : Str := s.data

/-- JS whitespace class, as used by `trim`, `\s` and `split`. -/
def jsIsSpace (c : Char) : Bool :=
  c = ' ' || c = '\t' || c = '\n' || c = '\r' || c = '\x0b' || c = '\x0c'

/-- JS `String.prototype.trim` (both ends). -/
def trimStr (s : Str) : Str :=
  ((s.dropWhile jsIsSpace).reverse.dropWhile jsIsSpace).reverse

def strLeft : Str := strOf "left"
def strCenter : Str := strOf "center"
def strRight : Str := strOf "right"

/-! ## Table model (`src/tableModel.js`) -/

structure Cell where
  content : Str
  colspan : Int
  rowspan : Int
deriving DecidableEq

structure Row where
  isHeader : Bool
  cells : List Cell
deriving DecidableEq

structure Table where
  alignments : List Str
  rows : List Row
deriving DecidableEq

def createCell (content : Str := []) (colspan : Int := 1) (rowspan : Int := 1) : Cell :=
  ⟨content, colspan, rowspan⟩

def createRow (cells : List Cell := []) (isHeader : Bool := false) : Row :=
  ⟨isHeader, cells⟩

def createTable (rows : List Row := []) (alignments : List Str := []) : Table :=
  ⟨alignments, rows⟩

/-- Sum of the colspans of a list of cells (the inner loop of `getColumnCount`). -/
def colsum (cells : List Cell) : Int :=
  cells.foldl (fun acc c => acc + c.colspan) 0

def rowColspanSum (r : Row) : Int := colsum r.cells

/-- `getColumnCount(table)`: max over rows of the sum of colspans. -/
def getColumnCount (t : Table) : Int :=
  t.rows.foldl (fun mx r => let c := rowColspanSum r; if mx < c then c else mx) 0

/-- The per-row padding loop of `normalizeTable`: push empty cells while the
running colspan total is below `colCount`. -/
def padRow (colCount : Int) (r : Row) : Row :=
  ⟨r.isHeader, r.cells ++ List.replicate (colCount - rowColspanSum r).toNat (createCell [])⟩

/-- `normalizeTable(table)`: pad short rows with empty cells, pad the alignments
with `'left'` up to the column count and truncate any excess. -/
def normalizeTable (t : Table) : Table :=
  let colCount := getColumnCount t
  ⟨(t.alignments ++ List.replicate (colCount.toNat - t.alignments.length) strLeft).take colCount.toNat,
   t.rows.map (padRow colCount)⟩

/-! ## Markdown parser (`src/markdownToHtml.js`) -/

/-- Character class `[\s:|-]` of `SEPARATOR_RE`. -/
def sepClass (c : Char) : Bool :=
  jsIsSpace c || c = ':' || c = '|' || c = '-'

/-- `SEPARATOR_RE = /^\|[\s:|-]+\|$/`: a leading `|`, at least one character
from `[\s:|-]`, then a trailing `|`. -/
def isSeparatorLine (s : Str) : Bool :=
  decide (3 ≤ s.length) && (s.head? == some '|') && (s.getLast? == some '|')
    && (s.drop 1).dropLast.all sepClass

/-- The separator pattern exactly as the spec sentence words it: starts and
ends with a pipe and contains only `-`, `:`, `|` and whitespace in between
(no requirement that anything stands between the pipes). -/
def specSepPatternClaim (s : Str) : Bool :=
  (s.head? == some '|') && (s.getLast? == some '|') && (s.drop 1).dropLast.all sepClass

/-- `replace(/^\|/, '')`: strip one leading pipe. -/
def stripLeadPipe (s : Str) : Str :=
  match s with
  | '|' :: r => r
  | _ => s

/-- `replace(/\|$/, '')`: strip one trailing pipe. -/
def stripTrailPipe (s : Str) : Str :=
  if s.getLast? == some '|' then s.dropLast else s

/-- The inner segments of a separator line: strip the outer pipes, split on `|`. -/
def segsOf (line : Str) : List Str :=
  (stripTrailPipe (stripLeadPipe line)).splitOn '|'

/-- Alignment of one separator segment (`parseAlignments` body). -/
def alignOfSeg (seg : Str) : Str :=
  let t := trimStr seg
  let l := t.head? == some ':'
  let r := t.getLast? == some ':'
  if l && r then strCenter
  else if r then strRight
  else strLeft

def parseAlignments (line : Str) : List Str :=
  (segsOf line).map alignOfSeg

/-- The alignment rule in the words of the claim: `center` when the trimmed
segment both starts and ends with `:`, `right` when it ends with `:` but does
not start with `:`, `left` in every other case. -/
def claimAlign (t : Str) : Str :=
  if t.head? = some ':' ∧ t.getLast? = some ':' then strCenter
  else if t.getLast? = some ':' ∧ ¬ t.head? = some ':' then strRight
  else strLeft

/-- Split on `|` not immediately preceded by a backslash
(the regex `/(?<!\\)\|/`), tracking the previous character of the original
string. -/
def splitUnescapedAux : Option Char → Str → Str → List Str
  | _, acc, [] => [acc.reverse]
  | prev, acc, c :: rest =>
    if c = '|' && prev ≠ some '\\' then
      acc.reverse :: splitUnescapedAux (some '|') [] rest
    else
      splitUnescapedAux (some c) (c :: acc) rest

def splitUnescaped (s : Str) : List Str := splitUnescapedAux none [] s

/-- `replace(/\\\|/g, '|')`: left-to-right, non-overlapping. -/
def unescapePipes : Str → Str
  | [] => []
  | [c] => [c]
  | c1 :: c2 :: rest =>
    if c1 = '\\' && c2 = '|' then '|' :: unescapePipes rest
    else c1 :: unescapePipes (c2 :: rest)

/-- `parseCells(line)`: strip outer pipes, split on unescaped pipes, trim each
segment and unescape `\|`. -/
def parseCells (line : Str) : List Str :=
  (splitUnescaped (stripTrailPipe (stripLeadPipe line))).map
    (fun p => unescapePipes (trimStr p))

/-- Line preprocessing of `parseMarkdownTable`: split on newlines, trim,
drop empty lines. -/
def linesOf (s : Str) : List Str :=
  ((s.splitOn '\n').map trimStr).filter (fun l => !l.isEmpty)

/-- First-separator search: returns the lines before the first separator line,
the separator line itself, and the lines after it. -/
def findSeparator : List Str → Option (List Str × Str × List Str)
  | [] => none
  | l :: rest =>
    if isSeparatorLine l then some ([], l, rest)
    else
      match findSeparator rest with
      | none => none
      | some (hs, sep, ds) => some (l :: hs, sep, ds)

def parseMarkdownTable (markdown : Str) : Option Table :=
  let lines := linesOf markdown
  if lines.length < 2 then none
  else
    match findSeparator lines with
    | none => none
    | some (headerLines, sepLine, dataLines) =>
      some (normalizeTable (createTable
        (headerLines.map (fun l => createRow ((parseCells l).map (fun c => createCell c)) true)
          ++ dataLines.map (fun l => createRow ((parseCells l).map (fun c => createCell c)) false))
        (parseAlignments sepLine)))

/-! ## HTML generator string form (`tableModelToHtml` in `src/markdownToHtml.js`) -/

def alignStyle (alignment : Str) : Str :=
  if alignment = strCenter then strOf "text-align: center;"
  else if alignment = strRight then strOf "text-align: right;"
  else strOf "text-align: left;"

def escapeHtmlChar (c : Char) : Str :=
  if c = '&' then strOf "&amp;"
  else if c = '<' then strOf "&lt;"
  else if c = '>' then strOf "&gt;"
  else if c = '"' then strOf "&quot;"
  else [c]

def escapeHtml (s : Str) : Str := s.flatMap escapeHtmlChar

/-- One `<th>` per cell (`row.cells.forEach((cell, i) => ...)` in the header
branch): inline style with the shared cell style, this column's alignment
(`table.alignments[i] || 'left'`) and bold. -/
def thRender (aligns : List Str) : Nat → List Cell → Str
  | _, [] => []
  | i, c :: rest =>
    strOf "      <th style=\"border: 1px solid black; padding: 6px 12px; " ++
      alignStyle (if (aligns.getD i []).isEmpty then strLeft else aligns.getD i []) ++
      strOf " font-weight: bold;\">" ++ escapeHtml c.content ++ strOf "</th>\n" ++
      thRender aligns (i + 1) rest

/-- One `<td>` per cell in the body branch. -/
def tdRender (aligns : List Str) : Nat → List Cell → Str
  | _, [] => []
  | i, c :: rest =>
    strOf "      <td style=\"border: 1px solid black; padding: 6px 12px; " ++
      alignStyle (if (aligns.getD i []).isEmpty then strLeft else aligns.getD i []) ++
      strOf "\">" ++ escapeHtml c.content ++ strOf "</td>\n" ++
      tdRender aligns (i + 1) rest

/-- `tableModelToHtml(table)`: a `<table>` with the header rows in `<thead>`
(only if any exist) and the data rows in `<tbody>` (only if any exist). -/
def tableModelToHtml (table : Table) : Str :=
  let headerRows := table.rows.filter (·.isHeader)
  let dataRows := table.rows.filter (fun r => !r.isHeader)
  strOf "<table style=\"border-collapse: collapse; border: 1px solid black;\">\n" ++
  (if headerRows.isEmpty then [] else
    strOf "  <thead>\n" ++
    headerRows.flatMap (fun row =>
      strOf "    <tr>\n" ++ thRender table.alignments 0 row.cells ++ strOf "    </tr>\n") ++
    strOf "  </thead>\n") ++
  (if dataRows.isEmpty then [] else
    strOf "  <tbody>\n" ++
    dataRows.flatMap (fun row =>
      strOf "    <tr>\n" ++ tdRender table.alignments 0 row.cells ++ strOf "    </tr>\n") ++
    strOf "  </tbody>\n") ++
  strOf "</table>"

/-! ## HTML parser (`htmlTableToModel` in `src/htmlToMarkdown.js`)

A sanitized DOM table element is embedded as explicit data: for each `td`/`th`
element we record its `textContent`, its `colspan`/`rowspan`/`align` attribute
values (`none` = attribute absent, as `getAttribute` returning `null`), and its
inline `style.textAlign` value. A `tr` records whether it sits inside a
`<thead>` section; the rows appear in document order. -/

structure HtmlCell where
  textContent : Str
  colspanAttr : Option Str
  rowspanAttr : Option Str
  alignAttr : Option Str
  styleTextAlign : Option Str
deriving DecidableEq

structure HtmlRow where
  inThead : Bool
  cells : List HtmlCell
deriving DecidableEq

structure HtmlTable where
  rows : List HtmlRow
deriving DecidableEq

/-- JS `parseInt(s, 10)`: skip leading whitespace, optional sign, then the
longest decimal-digit prefix; `none` models `NaN`. -/
def digitsToNat (ds : Str) : Nat :=
  ds.foldl (fun acc c => acc * 10 + (c.toNat - ('0').toNat)) 0

def jsParseInt (s : Str) : Option Int :=
  let t := s.dropWhile jsIsSpace
  let sign : Int := match t.head? with
    | some '-' => -1
    | _ => 1
  let t' := match t.head? with
    | some '-' => t.tail
    | some '+' => t.tail
    | _ => t
  let digs := t'.takeWhile Char.isDigit
  if digs.isEmpty then none else some (sign * (digitsToNat digs : Int))

/-- `attr || '1'` as applied to a `getAttribute` result: `null` and the empty
string both fall back to `'1'`. -/
def attrOr1 (a : Option Str) : Str :=
  match a with
  | some s => if s.isEmpty then [ '1' ] else s
  | none => [ '1' ]

/-- JS truthiness on an optional string: the empty string is falsy. -/
def nonEmptyOpt : Option Str → Option Str
  | some s => if s.isEmpty then none else some s
  | none => none

/-- `a || b || null` on optional strings. -/
def jsOr (a b : Option Str) : Option Str :=
  match nonEmptyOpt a with
  | some s => some s
  | none => nonEmptyOpt b

/-- `content.replace(/\s+/g, ' ')`: collapse each whitespace run to one space.
The boolean flag records whether the previous character was part of a run. -/
def collapseAux : Bool → Str → Str
  | _, [] => []
  | prevSpace, c :: rest =>
    if jsIsSpace c then
      if prevSpace then collapseAux true rest
      else ' ' :: collapseAux true rest
    else c :: collapseAux false rest

def collapseWs (s : Str) : Str := collapseAux false s

/-- Cell text extraction: collapse whitespace runs, then trim. -/
def cellText (s : Str) : Str := trimStr (collapseWs s)

/-- Rowspan carry-over ledger (`rowspanTracker`): a JS array of
`{remaining}` entries indexed by column; holes read as a zero entry. -/
def trackGet (tr : List Int) (i : Nat) : Int := tr.getD i 0

/-- `rowspanTracker[colIdx] && rowspanTracker[colIdx].remaining > 0`. -/
def owed (tr : List Int) (i : Nat) : Bool := decide (0 < trackGet tr i)

/-- JS array assignment `tracker[i] = v`, extending the array with holes
(modelled as zero entries) when `i` is beyond the current length. -/
def trackSet (tr : List Int) (i : Nat) (v : Int) : List Int :=
  if i < tr.length then tr.set i v
  else tr ++ List.replicate (i - tr.length) 0 ++ [v]

/-- The filler-emission loop: while a filler is owed at the current column,
emit an empty cell, decrement the ledger and advance. The fuel argument only
bounds the recursion; `tr.length` steps always suffice because each step
requires the current column to lie inside the ledger and advances it. -/
def drainRun : Nat → List Int → Nat → List Cell × List Int × Nat
  | 0, tr, colIdx => ([], tr, colIdx)
  | fuel + 1, tr, colIdx =>
    if owed tr colIdx then
      let r := drainRun fuel (trackSet tr colIdx (trackGet tr colIdx - 1)) (colIdx + 1)
      (createCell [] :: r.1, r.2.1, r.2.2)
    else ([], tr, colIdx)

/-- Length of the consecutive run of owed columns starting at `colIdx`. -/
def owedRun (tr : List Int) (colIdx : Nat) : Nat :=
  ((tr.drop colIdx).takeWhile (fun v => decide (0 < v))).length

/-- Decrement `n` consecutive ledger entries starting at column `i`. -/
def decRun : List Int → Nat → Nat → List Int
  | tr, _, 0 => tr
  | tr, i, n + 1 => decRun (trackSet tr i (trackGet tr i - 1)) (i + 1) n

structure ExpandOut where
  cells : List Cell
  tracker : List Int
  aligns : List Str
  colIdx : Nat
deriving DecidableEq

/-- The colspan-expansion loop `for (c = 0; c < colspan; c++)`: emit one cell
per covered column (content on the first, empty on the rest), set the ledger
entry when `rowspan > 1`, and push one alignment per column when capturing. -/
def expandCell (rowspanVal : Option Int) (alignVal : Str) (pushAligns : Bool) :
    Nat → Str → List Int → Nat → ExpandOut
  | 0, _, tr, colIdx => ⟨[], tr, [], colIdx⟩
  | n + 1, content, tr, colIdx =>
    let tr' := match rowspanVal with
      | some r => if 1 < r then trackSet tr colIdx (r - 1) else tr
      | none => tr
    let rest := expandCell rowspanVal alignVal pushAligns n [] tr' (colIdx + 1)
    ⟨createCell content :: rest.cells, rest.tracker,
      (if pushAligns then alignVal :: rest.aligns else rest.aligns), rest.colIdx⟩

/-- `align.toLowerCase()` when an alignment source is present, else `'left'`. -/
def cellAlignVal (cellEl : HtmlCell) : Str :=
  match jsOr cellEl.alignAttr cellEl.styleTextAlign with
  | some a => a.map Char.toLower
  | none => strLeft

/-- Number of iterations of the colspan-expansion loop: the parsed colspan
clamped below at zero; `NaN` yields zero iterations. -/
def cellColspanCount (cellEl : HtmlCell) : Nat :=
  match jsParseInt (attrOr1 cellEl.colspanAttr) with
  | some k => k.toNat
  | none => 0

/-- Consume one source cell element: extract and collapse its text, parse the
span attributes, and run the expansion loop. -/
def consumeCell (pushAligns : Bool) (cellEl : HtmlCell) (tr : List Int) (colIdx : Nat) :
    ExpandOut :=
  expandCell (jsParseInt (attrOr1 cellEl.rowspanAttr)) (cellAlignVal cellEl) pushAligns
    (cellColspanCount cellEl) (cellText cellEl.textContent) tr colIdx

structure RowOut where
  cells : List Cell
  tracker : List Int
  aligns : List Str
deriving DecidableEq

/-- The per-row `while` loop of `htmlTableToModel`: drain owed fillers at the
current column, then consume the next actual cell element; when the elements
are exhausted, drain once more and stop (the trailing drain loop in the source
is subsumed: the main loop already exits only when nothing is owed at the
current column). -/
def processCells (pushAligns : Bool) : List HtmlCell → List Int → Nat → RowOut
  | [], tr, colIdx =>
    let d := drainRun tr.length tr colIdx
    ⟨d.1, d.2.1, []⟩
  | cellEl :: rest, tr, colIdx =>
    let d := drainRun tr.length tr colIdx
    let e := consumeCell pushAligns cellEl d.2.1 d.2.2
    let r := processCells pushAligns rest e.tracker e.colIdx
    ⟨d.1 ++ e.cells ++ r.cells, r.tracker, e.aligns ++ r.aligns⟩

/-- The row loop of `htmlTableToModel`: a row is a header when it sits in
`<thead>`, or is row zero of a table with no `<thead>` rows; alignments are
captured from the first header row only. -/
def processRows (treatFirst : Bool) : List HtmlRow → List Int → Nat → Bool → List Row × List Str
  | [], _, _, _ => ([], [])
  | hr :: rest, tr, rowIdx, alignsSet =>
    let isHeader := hr.inThead || (treatFirst && rowIdx == 0)
    let o := processCells (isHeader && !alignsSet) hr.cells tr 0
    let r := processRows treatFirst rest o.tracker (rowIdx + 1) (alignsSet || isHeader)
    (createRow o.cells isHeader :: r.1, o.aligns ++ r.2)

def htmlTableToModel (tableEl : HtmlTable) : Option Table :=
  if tableEl.rows.isEmpty then none
  else
    let treatFirst := !(tableEl.rows.any (·.inThead))
    let pr := processRows treatFirst tableEl.rows [] 0 false
    some (normalizeTable (createTable pr.1 pr.2))

/-! ## Markdown generator (`tableModelToMarkdown` in `src/htmlToMarkdown.js`) -/

/-- `escapeMarkdownCell`: `content.replace(/\|/g, '\\|')`. -/
def escapeMarkdownCell : Str → Str
  | [] => []
  | c :: r => if c = '|' then '\\' :: '|' :: escapeMarkdownCell r else c :: escapeMarkdownCell r

def padEnd (s : Str) (w : Nat) : Str := s ++ List.replicate (w - s.length) ' '

/-- `'|' + cells.join('|') + '|'`. -/
def joinPipes (cells : List Str) : Str :=
  ('|' :: List.intercalate [ '|' ] cells) ++ [ '|' ]

/-- One row of the width computation: `widths[i] = max(widths[i], escaped.length)`
for every `i` below both the column count and the row's cell count. -/
def updateWidths : List Nat → List Cell → List Nat
  | [], _ => []
  | w :: ws, [] => w :: ws
  | w :: ws, c :: cs => max w (escapeMarkdownCell c.content).length :: updateWidths ws cs

def computeWidths (t : Table) : List Nat :=
  t.rows.foldl (fun ws row => updateWidths ws row.cells) (List.replicate t.alignments.length 3)

/-- Render the cells of one row against the column widths: a missing cell
renders as empty content, surplus cells beyond the column count are dropped. -/
def renderCellsAux : List Nat → List Cell → List Str
  | [], _ => []
  | w :: ws, [] => (' ' :: padEnd [] w ++ [ ' ' ]) :: renderCellsAux ws []
  | w :: ws, c :: cs =>
    (' ' :: padEnd (escapeMarkdownCell c.content) w ++ [ ' ' ]) :: renderCellsAux ws cs

/-- One separator segment: `:---:` for center, `---:` (one extra dash) for
right, plain dashes of width `w + 2` otherwise. -/
def sepSeg (align : Str) (w : Nat) : Str :=
  if align = strCenter then ':' :: List.replicate w '-' ++ [ ':' ]
  else if align = strRight then List.replicate w '-' ++ [ '-', ':' ]
  else List.replicate (w + 2) '-'

/-- Separator segments for all columns; a missing alignment entry falls back
to `'left'` (`alignments[i] || 'left'`). -/
def sepSegs : List Nat → List Str → List Str
  | [], _ => []
  | w :: ws, [] => sepSeg strLeft w :: sepSegs ws []
  | w :: ws, a :: as' => sepSeg a w :: sepSegs ws as'

def tableModelToMarkdown (t : Table) : Str :=
  if t.rows.isEmpty then []
  else
    let widths := computeWidths t
    let headerRows := t.rows.filter (·.isHeader)
    let dataRows := t.rows.filter (fun r => !r.isHeader)
    let actual := if headerRows.isEmpty then (t.rows.take 1, t.rows.drop 1)
      else (headerRows, dataRows)
    let headerLines := actual.1.map (fun r => joinPipes (renderCellsAux widths r.cells))
    let sepLine := joinPipes (sepSegs widths t.alignments)
    let dataLines := actual.2.map (fun r => joinPipes (renderCellsAux widths r.cells))
    List.intercalate [ '\n' ] (headerLines ++ sepLine :: dataLines)

/-! ## Orchestration (`htmlToMarkdown` in `src/htmlToMarkdown.js`)

The sanitizer is an excluded collaborator: per the spec contract it yields
either nothing or a clean table element together with the number of `<table>`
elements found in the source. `htmlToMarkdown` is embedded as a function of
that sanitizer result. -/

structure SanitizedDoc where
  table : HtmlTable
  tableCount : Nat
deriving DecidableEq

def countWarning (n : Nat) : Str :=
  strOf "Found " ++ (Nat.repr n).data ++ strOf " tables — only the first was converted."

def mergedWarning : Str :=
  strOf "Merged cells were expanded into separate cells."

/-- The merged-cell check of `htmlToMarkdown`: a cell whose `colspan` or
`rowspan` attribute parses to a value greater than 1. -/
def cellHasMergeAttrs (c : HtmlCell) : Bool :=
  (match jsParseInt (attrOr1 c.colspanAttr) with
    | some k => decide (1 < k)
    | none => false)
  || (match jsParseInt (attrOr1 c.rowspanAttr) with
    | some k => decide (1 < k)
    | none => false)

/-- `querySelectorAll('td, th')` over the table, in document order. -/
def allCells (ht : HtmlTable) : List HtmlCell := ht.rows.flatMap (·.cells)

def htmlToMarkdown (input : Option SanitizedDoc) : Option (Str × List Str) :=
  match input with
  | none => none
  | some doc =>
    match htmlTableToModel doc.table with
    | none => none
    | some model =>
      let warnings₁ := if 1 < doc.tableCount then [countWarning doc.tableCount] else []
      let warnings₂ := if (allCells doc.table).any cellHasMergeAttrs then [mergedWarning] else []
      some (tableModelToMarkdown model, warnings₁ ++ warnings₂)

/-! ## The DOM image of the generated HTML

`tableModelToHtml` (the HTML generator) renders the header rows inside a
`<thead>` and the data rows inside a `<tbody>`; every cell is a `th`/`td`
carrying only an inline `style` whose `text-align` value is produced by
`alignStyle` from `alignments[i] || 'left'`, and whose body is
`escapeHtml(cell.content)`.

Modelled from the spec: parsing that markup back with a DOM parser (the
excluded browser collaborator) yields a table element whose rows are exactly
the header rows (inside `thead`) followed by the data rows, where each cell
has no `colspan`/`rowspan`/`align` attribute, `style.textAlign` equal to the
generated alignment keyword, and `textContent` equal to the original cell
content (the DOM decodes the four `escapeHtml` entities back). -/

/-- The `text-align` keyword `alignStyle` puts in the generated style. -/
def alignStyleValue (a : Str) : Str :=
  if a = strCenter then strCenter
  else if a = strRight then strRight
  else strLeft

def domCellOf (aligns : List Str) (i : Nat) (c : Cell) : HtmlCell :=
  ⟨c.content, none, none, none, some (alignStyleValue (aligns.getD i []))⟩

def domCellsOf (aligns : List Str) : Nat → List Cell → List HtmlCell
  | _, [] => []
  | i, c :: rest => domCellOf aligns i c :: domCellsOf aligns (i + 1) rest

def generatedHtmlDom (t : Table) : HtmlTable :=
  ⟨(t.rows.filter (·.isHeader)).map (fun r => ⟨true, domCellsOf t.alignments 0 r.cells⟩)
    ++ (t.rows.filter (fun r => !r.isHeader)).map
        (fun r => ⟨false, domCellsOf t.alignments 0 r.cells⟩)⟩

def contentsOf (t : Table) : List (List Str) :=
  t.rows.map (fun r => r.cells.map (fun c => c.content))

/-! ## Lemmas about the table model -/

theorem colsum_shift (cells : List Cell) (init : Int) :
    cells.foldl (fun acc c => acc + c.colspan) init = init + colsum cells := by
  induction cells generalizing init with
  | nil => simp [colsum]
  | cons c cs ih =>
    simp only [List.foldl_cons, colsum]
    rw [ih, ih (0 + c.colspan)]
    ring

theorem colsum_append (a b : List Cell) : colsum (a ++ b) = colsum a + colsum b := by
  simp only [colsum, List.foldl_append]
  rw [colsum_shift b (List.foldl _ 0 a)]
  rfl

theorem colsum_cons (c : Cell) (cs : List Cell) : colsum (c :: cs) = c.colspan + colsum cs := by
  simp only [colsum, List.foldl_cons]
  rw [colsum_shift]
  ring_nf
  rfl

theorem colsum_replicate (n : Nat) : colsum (List.replicate n (createCell [])) = n := by
  induction n with
  | zero => simp [colsum]
  | succ m ih =>
    rw [List.replicate_succ, colsum_cons, ih]
    simp [createCell]
    ring

theorem colsum_of_unit (cells : List Cell) (h : ∀ c ∈ cells, c.colspan = 1) :
    colsum cells = cells.length := by
  induction cells with
  | nil => simp [colsum]
  | cons c cs ih =>
    rw [colsum_cons, ih (fun x hx => h x (List.mem_cons_of_mem _ hx)),
      h c (List.mem_cons_self _ _)]
    simp only [List.length_cons]
    push_cast
    ring

theorem ifmax_eq_max (a b : Int) : (if a < b then b else a) = max a b := by
  rcases lt_or_ge a b with h | h
  · simp [h, max_eq_right h.le]
  · simp [not_lt.mpr h, max_eq_left h]

theorem getColumnCount_eq_foldl (t : Table) :
    getColumnCount t = t.rows.foldl (fun mx r => max mx (rowColspanSum r)) 0 := by
  unfold getColumnCount
  induction t.rows using List.reverseRecOn with
  | nil => rfl
  | append_singleton l r ih => simp [List.foldl_append, ih, ifmax_eq_max]

theorem foldl_max_le_init (l : List Row) (init : Int) :
    init ≤ l.foldl (fun mx r => max mx (rowColspanSum r)) init := by
  induction l generalizing init with
  | nil => simp
  | cons r rs ih => exact le_trans (le_max_left _ _) (ih (max init (rowColspanSum r)))

theorem foldl_max_of_mem (l : List Row) (init : Int) (r : Row) (h : r ∈ l) :
    rowColspanSum r ≤ l.foldl (fun mx x => max mx (rowColspanSum x)) init := by
  induction l generalizing init with
  | nil => cases h
  | cons x xs ih =>
    rcases List.mem_cons.mp h with h1 | h1
    · subst h1
      exact le_trans (le_max_right _ _) (foldl_max_le_init xs _)
    · exact ih _ h1

theorem getColumnCount_nonneg (t : Table) : 0 ≤ getColumnCount t := by
  rw [getColumnCount_eq_foldl]
  exact foldl_max_le_init _ _

theorem rowColspanSum_le_getColumnCount (t : Table) (r : Row) (h : r ∈ t.rows) :
    rowColspanSum r ≤ getColumnCount t := by
  rw [getColumnCount_eq_foldl]
  exact foldl_max_of_mem _ _ _ h

theorem foldl_max_const (l : List Row) (k init : Int)
    (hne : l ≠ []) (hall : ∀ r ∈ l, rowColspanSum r = k) :
    l.foldl (fun mx r => max mx (rowColspanSum r)) init = max init k := by
  induction l generalizing init with
  | nil => exact absurd rfl hne
  | cons x xs ih =>
    simp only [List.foldl_cons]
    rw [hall x (List.mem_cons_self _ _)]
    rcases List.eq_nil_or_concat xs with h | _
    · subst h; simp
    · rcases xs with _ | ⟨y, ys⟩
      · simp
      · rw [ih (max init k) (by simp) (fun r hr => hall r (List.mem_cons_of_mem _ hr))]
        rw [max_assoc, max_self]

theorem padRow_isHeader (k : Int) (r : Row) : (padRow k r).isHeader = r.isHeader := rfl

theorem padRow_sum (k : Int) (r : Row) (h : rowColspanSum r ≤ k) :
    rowColspanSum (padRow k r) = k := by
  simp only [rowColspanSum] at h
  simp only [padRow, rowColspanSum, colsum_append, colsum_replicate]
  omega

theorem padRow_eq_self (k : Int) (r : Row) (h : rowColspanSum r = k) : padRow k r = r := by
  simp [padRow, h]

theorem normalizeTable_rows (t : Table) :
    (normalizeTable t).rows = t.rows.map (padRow (getColumnCount t)) := rfl

theorem normalizeTable_alignments (t : Table) :
    (normalizeTable t).alignments =
      (t.alignments ++
        List.replicate ((getColumnCount t).toNat - t.alignments.length) strLeft).take
        (getColumnCount t).toNat := rfl

theorem normalizeTable_alignments_length (t : Table) :
    (normalizeTable t).alignments.length = (getColumnCount t).toNat := by
  rw [normalizeTable_alignments]
  simp only [List.length_take, List.length_append, List.length_replicate]
  omega

theorem normalized_row_sum (t : Table) (r : Row) (h : r ∈ (normalizeTable t).rows) :
    rowColspanSum r = getColumnCount t := by
  rw [normalizeTable_rows] at h
  rcases List.mem_map.mp h with ⟨r0, hr0, rfl⟩
  exact padRow_sum _ _ (rowColspanSum_le_getColumnCount t r0 hr0)

theorem getColumnCount_normalize (t : Table) :
    getColumnCount (normalizeTable t) = getColumnCount t := by
  rcases List.eq_nil_or_concat t.rows with hnil | _
  · have : (normalizeTable t).rows = [] := by rw [normalizeTable_rows, hnil]; rfl
    unfold getColumnCount
    rw [this, hnil]
  · rcases hx : t.rows with _ | ⟨r, rs⟩
    · simp only [getColumnCount_eq_foldl]
      rw [normalizeTable_rows, hx]
      rfl
    · have hne : (normalizeTable t).rows ≠ [] := by
        rw [normalizeTable_rows, hx]; simp
      rw [getColumnCount_eq_foldl]
      rw [foldl_max_const _ (getColumnCount t) 0 hne (fun x hxm => normalized_row_sum t x hxm)]
      exact max_eq_right (getColumnCount_nonneg t)

theorem tableEq (x y : Table) (h1 : x.alignments = y.alignments) (h2 : x.rows = y.rows) :
    x = y := by
  cases x
  cases y
  simp_all

theorem normalizeTable_idem (t : Table) : normalizeTable (normalizeTable t) = normalizeTable t := by
  have hk := getColumnCount_normalize t
  have hrows : (normalizeTable (normalizeTable t)).rows = (normalizeTable t).rows := by
    rw [normalizeTable_rows (normalizeTable t), hk]
    have : ∀ r ∈ (normalizeTable t).rows, padRow (getColumnCount t) r = r := by
      intro r hr
      exact padRow_eq_self _ _ (normalized_row_sum t r hr)
    calc (normalizeTable t).rows.map (padRow (getColumnCount t))
        = (normalizeTable t).rows.map id := List.map_congr_left this
      _ = (normalizeTable t).rows := List.map_id _
  have haligns : (normalizeTable (normalizeTable t)).alignments = (normalizeTable t).alignments := by
    rw [normalizeTable_alignments (normalizeTable t), hk, normalizeTable_alignments_length t]
    simp only [Nat.sub_self, List.replicate_zero, List.append_nil]
    exact List.take_of_length_le (le_of_eq (normalizeTable_alignments_length t))
  exact tableEq _ _ haligns hrows

theorem padRow_length_of_unit (k : Int) (r : Row) (hle : rowColspanSum r ≤ k)
    (hu : ∀ c ∈ r.cells, c.colspan = 1) : (padRow k r).cells.length = k.toNat := by
  simp only [padRow, rowColspanSum, List.length_append, List.length_replicate]
  have h1 := colsum_of_unit r.cells hu
  simp only [rowColspanSum] at hle
  rw [h1]
  omega

/-- C5: `normalizeTable` is idempotent: normalizing an already-normalized table
changes nothing, so `normalizeTable (normalizeTable t) = normalizeTable t` for
every table; in the functional embedding the in-place mutation of the argument
is rendered as the function's result. -/
theorem claim_C5_normalize_idempotent (t : Table) :
    normalizeTable (normalizeTable t) = normalizeTable t :=
  normalizeTable_idem t

/-- C2 counterexample: for the one-row table whose single cell has colspan 2,
`getColumnCount` is 2 but the normalized row still has exactly one cell, so
"after normalizeTable(t) every row has exactly columnCount cells" fails. -/
theorem claim_C2_counterexample :
    getColumnCount (createTable [createRow [createCell [] 2 1] false] []) = 2 ∧
    (normalizeTable (createTable [createRow [createCell [] 2 1] false] [])).rows.map
      (fun r => r.cells.length) = [1] := by decide

/-- C2 (amended): after `normalizeTable t`, every row's total colspan (not its
cell count) equals `columnCount`, the pre-normalization maximum of the per-row
colspan sums; short rows are padded on the right with cells
`⟨"", 1, 1⟩`; rows have exactly `columnCount` cells whenever every cell has
colspan 1; and the alignments have length exactly `columnCount`, with the
preserved prefix followed by `'left'` entries and any excess truncated. -/
theorem claim_C2_normalize_invariant (t : Table) :
    (normalizeTable t).rows.length = t.rows.length ∧
    (∀ r' ∈ (normalizeTable t).rows, rowColspanSum r' = getColumnCount t) ∧
    (∀ (i : Nat) (r : Row), t.rows[i]? = some r →
      (normalizeTable t).rows[i]? =
        some ⟨r.isHeader, r.cells ++
          List.replicate ((getColumnCount t - rowColspanSum r).toNat) (createCell [])⟩) ∧
    ((∀ r ∈ t.rows, ∀ c ∈ r.cells, c.colspan = 1) →
      ∀ r' ∈ (normalizeTable t).rows, r'.cells.length = (getColumnCount t).toNat) ∧
    ((normalizeTable t).alignments.length = (getColumnCount t).toNat) ∧
    (∀ j, j < t.alignments.length → j < (getColumnCount t).toNat →
      (normalizeTable t).alignments[j]? = t.alignments[j]?) ∧
    (∀ j, t.alignments.length ≤ j → j < (getColumnCount t).toNat →
      (normalizeTable t).alignments[j]? = some strLeft) := by
  refine ⟨?_, ?_, ?_, ?_, normalizeTable_alignments_length t, ?_, ?_⟩
  · rw [normalizeTable_rows]
    exact List.length_map _ _
  · exact normalized_row_sum t
  · intro i r hr
    rw [normalizeTable_rows, List.getElem?_map, hr]
    rfl
  · intro hu r' hr'
    rw [normalizeTable_rows] at hr'
    rcases List.mem_map.mp hr' with ⟨r0, hr0, rfl⟩
    exact padRow_length_of_unit _ _ (rowColspanSum_le_getColumnCount t r0 hr0)
      (hu r0 hr0)
  · intro j h1 h2
    rw [normalizeTable_alignments, List.getElem?_take, if_pos h2,
      List.getElem?_append, if_pos h1]
  · intro j h1 h2
    rw [normalizeTable_alignments, List.getElem?_take, if_pos h2,
      List.getElem?_append, if_neg (by omega), List.getElem?_replicate]
    simp only [if_pos (by omega : j - t.alignments.length <
      (getColumnCount t).toNat - t.alignments.length)]

/-- Witness for C2 (amended) at a concrete table: a two-column table whose
second row is short gets padded with one empty cell, and the missing alignment
entry is filled with `'left'`. -/
theorem claim_C2_witness :
    (normalizeTable (createTable
        [createRow [createCell (strOf "a"), createCell (strOf "b")] true,
         createRow [createCell (strOf "c")] false] [])).rows[1]? =
      some (Row.mk false ([createCell (strOf "c")] ++
        List.replicate ((getColumnCount (createTable
          [createRow [createCell (strOf "a"), createCell (strOf "b")] true,
           createRow [createCell (strOf "c")] false] []) -
          rowColspanSum (Row.mk false [createCell (strOf "c")])).toNat) (createCell []))) ∧
    (normalizeTable (createTable
        [createRow [createCell (strOf "a"), createCell (strOf "b")] true,
         createRow [createCell (strOf "c")] false] [])).alignments[0]? = some strLeft := by
  refine ⟨(claim_C2_normalize_invariant _).2.2.1 1 (Row.mk false [createCell (strOf "c")]) (by decide), ?_⟩
  exact (claim_C2_normalize_invariant _).2.2.2.2.2.2 0 (by decide) (by decide)

/-- C10: `normalizeTable` only appends: every pre-existing cell is unchanged at
its position, row count, row order and header flags are unchanged, the
alignment entries below the column count are unchanged, appended cells are
empty unit cells, appended alignment entries are `'left'`, and the alignment
list is cut to exactly the column count. -/
theorem claim_C10_normalize_frame (t : Table) :
    (normalizeTable t).rows.length = t.rows.length ∧
    (∀ (i : Nat) (r : Row), t.rows[i]? = some r →
      ∃ r', (normalizeTable t).rows[i]? = some r' ∧
        r'.isHeader = r.isHeader ∧
        (∀ j, j < r.cells.length → r'.cells[j]? = r.cells[j]?) ∧
        (∀ j, r.cells.length ≤ j → j < r'.cells.length →
          r'.cells[j]? = some (createCell []))) ∧
    (∀ j, j < t.alignments.length → j < (getColumnCount t).toNat →
      (normalizeTable t).alignments[j]? = t.alignments[j]?) ∧
    (∀ j, t.alignments.length ≤ j → j < (getColumnCount t).toNat →
      (normalizeTable t).alignments[j]? = some strLeft) ∧
    (normalizeTable t).alignments.length = (getColumnCount t).toNat := by
  refine ⟨?_, ?_, ?_, ?_, normalizeTable_alignments_length t⟩
  · rw [normalizeTable_rows]
    exact List.length_map _ _
  · intro i r hr
    refine ⟨padRow (getColumnCount t) r, ?_, rfl, ?_, ?_⟩
    · rw [normalizeTable_rows, List.getElem?_map, hr]
      rfl
    · intro j hj
      simp only [padRow]
      rw [List.getElem?_append, if_pos hj]
    · intro j hj1 hj2
      simp only [padRow]
      rw [List.getElem?_append, if_neg (by omega), List.getElem?_replicate]
      simp only [padRow, List.length_append, List.length_replicate] at hj2
      simp only [if_pos (by omega : j - r.cells.length <
        (getColumnCount t - rowColspanSum r).toNat)]
  · intro j h1 h2
    rw [normalizeTable_alignments, List.getElem?_take, if_pos h2,
      List.getElem?_append, if_pos h1]
  · intro j h1 h2
    rw [normalizeTable_alignments, List.getElem?_take, if_pos h2,
      List.getElem?_append, if_neg (by omega), List.getElem?_replicate]
    simp only [if_pos (by omega : j - t.alignments.length <
      (getColumnCount t).toNat - t.alignments.length)]

/-- Witness for C10 at a concrete table: the pre-existing first cell of the
short second row is preserved and the cell appended beyond it is empty. -/
theorem claim_C10_witness :
    ∃ r', (normalizeTable (createTable
        [createRow [createCell (strOf "a") 1 1, createCell (strOf "b") 1 1] true,
         createRow [createCell (strOf "c") 2 3] false] [ strCenter])).rows[1]? = some r' ∧
      r'.isHeader = false ∧
      (∀ j, j < 1 → r'.cells[j]? = [createCell (strOf "c") 2 3][j]?) ∧
      (∀ j, 1 ≤ j → j < r'.cells.length → r'.cells[j]? = some (createCell [])) := by
  have h := (claim_C10_normalize_frame (createTable
      [createRow [createCell (strOf "a") 1 1, createCell (strOf "b") 1 1] true,
       createRow [createCell (strOf "c") 2 3] false] [ strCenter])).2.1 1
      ⟨false, [createCell (strOf "c") 2 3]⟩ (by decide)
  rcases h with ⟨r', h1, h2, h3, h4⟩
  exact ⟨r', h1, h2, h3, h4⟩

/-! ## Lemmas about the markdown parser -/

theorem findSeparator_eq_none_iff (ls : List Str) :
    findSeparator ls = none ↔ ∀ l ∈ ls, isSeparatorLine l = false := by
  induction ls with
  | nil => simp [findSeparator]
  | cons l rest ih =>
    constructor
    · intro hnone l' hl'
      by_cases h : isSeparatorLine l
      · simp only [findSeparator, if_pos h] at hnone
        simp at hnone
      · simp only [findSeparator, if_neg h] at hnone
        cases hf : findSeparator rest with
        | none =>
          rcases List.mem_cons.mp hl' with rfl | hm
          · exact Bool.eq_false_iff.mpr h
          · exact (ih.mp hf) l' hm
        | some trip =>
          obtain ⟨a, b, c⟩ := trip
          rw [hf] at hnone
          simp at hnone
    · intro hall
      have h : isSeparatorLine l = false := hall l (List.mem_cons_self _ _)
      have h2 : findSeparator rest = none :=
        ih.mpr (fun x hx => hall x (List.mem_cons_of_mem _ hx))
      simp only [findSeparator, h, Bool.false_eq_true, if_false, h2]

theorem findSeparator_some_decomp (ls : List Str) :
    ∀ (hs : List Str) (sep : Str) (ds : List Str), findSeparator ls = some (hs, sep, ds) →
      ls = hs ++ sep :: ds ∧ isSeparatorLine sep = true := by
  induction ls with
  | nil => intro hs sep ds h; simp [findSeparator] at h
  | cons l rest ih =>
    intro hs sep ds h
    simp only [findSeparator] at h
    by_cases hl : isSeparatorLine l
    · rw [if_pos hl] at h
      simp only [Option.some.injEq, Prod.mk.injEq] at h
      obtain ⟨hhs, hsep, hds⟩ := h
      subst hhs
      subst hsep
      subst hds
      exact ⟨rfl, hl⟩
    · rw [if_neg hl] at h
      cases hf : findSeparator rest with
      | none =>
        rw [hf] at h
        simp at h
      | some trip =>
        obtain ⟨hs', sep', ds'⟩ := trip
        rw [hf] at h
        simp only [Option.some.injEq, Prod.mk.injEq] at h
        obtain ⟨hhs, hsep, hds⟩ := h
        obtain ⟨hdec, hsepl⟩ := ih hs' sep' ds' hf
        subst hhs
        subst hsep
        subst hds
        exact ⟨by rw [hdec]; rfl, hsepl⟩

/-- C4 counterexample: the input `"x\n||"` has two non-empty trimmed lines and
its second line matches the claim's description of the separator pattern
(starts and ends with `|`, nothing between), yet `parseMarkdownTable` returns
the null sentinel — `SEPARATOR_RE` demands at least one character between the
pipes. -/
theorem claim_C4_counterexample :
    parseMarkdownTable (strOf "x\n||") = none ∧
    (linesOf (strOf "x\n||")).length = 2 ∧
    (linesOf (strOf "x\n||")).any specSepPatternClaim = true := by decide

/-- C4 (amended): `parseMarkdownTable` is total (the embedding is a function),
and returns the null sentinel exactly when the input has fewer than 2
non-empty trimmed lines (this covers empty input) or no line matching the
separator pattern of `SEPARATOR_RE` — which requires at least one character
between the leading and trailing `|`, all drawn from `-`, `:`, `|`,
whitespace; otherwise it returns a table fixed by `normalizeTable`
(well-formed). -/
theorem claim_C4_parse_failure (s : Str) :
    (parseMarkdownTable s = none ↔
      (linesOf s).length < 2 ∨ ∀ l ∈ linesOf s, isSeparatorLine l = false) ∧
    (∀ t, parseMarkdownTable s = some t → normalizeTable t = t) := by
  constructor
  · by_cases h2 : (linesOf s).length < 2
    · simp [parseMarkdownTable, h2]
    · cases hf : findSeparator (linesOf s) with
      | none =>
        simp only [parseMarkdownTable, if_neg h2, hf]
        exact iff_of_true trivial (Or.inr ((findSeparator_eq_none_iff _).mp hf))
      | some trip =>
        obtain ⟨hs, sep, ds⟩ := trip
        obtain ⟨hdec, hsep⟩ := findSeparator_some_decomp _ _ _ _ hf
        simp only [parseMarkdownTable, if_neg h2, hf]
        simp only [Option.some_ne_none, false_iff, not_or, not_forall]
        refine ⟨h2, ⟨sep, ?_, by simp [hsep]⟩⟩
        rw [hdec]
        exact List.mem_append_right _ (List.mem_cons_self _ _)
  · intro t ht
    simp only [parseMarkdownTable] at ht
    by_cases h2 : (linesOf s).length < 2
    · rw [if_pos h2] at ht
      cases ht
    · rw [if_neg h2] at ht
      cases hf : findSeparator (linesOf s) with
      | none =>
        rw [hf] at ht
        cases ht
      | some trip =>
        obtain ⟨hs, sep, ds⟩ := trip
        rw [hf] at ht
        simp only [Option.some.injEq] at ht
        rw [← ht]
        exact normalizeTable_idem _

/-- Witness for C4 (amended) at a concrete parse success: the parsed table is
a fixed point of `normalizeTable`. -/
theorem claim_C4_witness :
    normalizeTable ((parseMarkdownTable (strOf "| a |\n|---|")).getD (createTable [] [])) =
      (parseMarkdownTable (strOf "| a |\n|---|")).getD (createTable [] []) :=
  (claim_C4_parse_failure (strOf "| a |\n|---|")).2 _ (by decide)

/-! ## C6: separator alignment rule -/

theorem alignOfSeg_eq_claim (seg : Str) : alignOfSeg seg = claimAlign (trimStr seg) := by
  unfold alignOfSeg claimAlign
  by_cases h1 : (trimStr seg).head? = some ':' <;>
    by_cases h2 : (trimStr seg).getLast? = some ':' <;>
      simp [h1, h2]

/-- C6: for every separator line, `parseAlignments` maps each segment of the
split to `center` when the trimmed segment both starts and ends with `:`, to
`right` when it ends with `:` but does not start with it, and to `left` in
every other case — in particular the leading-colon-only segment `:---` yields
`left`. -/
theorem claim_C6_alignment_rule (line : Str) :
    parseAlignments line = (segsOf line).map (fun seg => claimAlign (trimStr seg)) ∧
    claimAlign (trimStr (strOf ":---")) = strLeft ∧
    claimAlign (trimStr (strOf ":--:")) = strCenter ∧
    claimAlign (trimStr (strOf "--:")) = strRight := by
  refine ⟨?_, by decide, by decide, by decide⟩
  unfold parseAlignments
  exact List.map_congr_left (fun seg _ => alignOfSeg_eq_claim seg)

/-! ## C8: escaped pipes -/

theorem escape_head_not_pipe (s : Str) : ∀ rest, escapeMarkdownCell s ≠ '|' :: rest := by
  intro rest
  cases s with
  | nil => simp [escapeMarkdownCell]
  | cons c r =>
    by_cases h : c = '|' <;> simp [escapeMarkdownCell, h]

theorem escape_eq_nil_iff (s : Str) : escapeMarkdownCell s = [] ↔ s = [] := by
  cases s with
  | nil => simp [escapeMarkdownCell]
  | cons c r =>
    by_cases h : c = '|' <;> simp [escapeMarkdownCell, h]

theorem unescape_escape (s : Str) : unescapePipes (escapeMarkdownCell s) = s := by
  induction s with
  | nil => rfl
  | cons c r ih =>
    by_cases hc : c = '|'
    · subst hc
      cases hesc : escapeMarkdownCell r with
      | nil =>
        rw [(escape_eq_nil_iff r).mp hesc]
        simp [escapeMarkdownCell, unescapePipes]
      | cons x xs =>
        simp only [escapeMarkdownCell, if_pos rfl]
        rw [hesc]
        simp only [unescapePipes]
        rw [if_pos (by simp), ← hesc, ih]
    · rw [show escapeMarkdownCell (c :: r) = c :: escapeMarkdownCell r by
        simp [escapeMarkdownCell, hc]]
      cases hesc : escapeMarkdownCell r with
      | nil =>
        rw [(escape_eq_nil_iff r).mp hesc]
        rfl
      | cons x xs =>
        have hx : x ≠ '|' := by
          intro hx
          exact escape_head_not_pipe r xs (by rw [hesc, hx])
        simp only [unescapePipes]
        rw [if_neg (by simp [hx]), ← hesc, ih]

theorem splitUnescapedAux_escape (s : Str) :
    ∀ (prev : Option Char) (acc : Str),
      splitUnescapedAux prev acc (escapeMarkdownCell s) =
        [acc.reverse ++ escapeMarkdownCell s] := by
  induction s with
  | nil => intro prev acc; simp [escapeMarkdownCell, splitUnescapedAux]
  | cons c r ih =>
    intro prev acc
    by_cases hc : c = '|'
    · subst hc
      rw [show escapeMarkdownCell ('|' :: r) = '\\' :: '|' :: escapeMarkdownCell r by
        simp [escapeMarkdownCell]]
      rw [show splitUnescapedAux prev acc ('\\' :: '|' :: escapeMarkdownCell r) =
          splitUnescapedAux (some '\\') ('\\' :: acc) ('|' :: escapeMarkdownCell r) by
        simp [splitUnescapedAux]]
      rw [show splitUnescapedAux (some '\\') ('\\' :: acc) ('|' :: escapeMarkdownCell r) =
          splitUnescapedAux (some '|') ('|' :: '\\' :: acc) (escapeMarkdownCell r) by
        simp [splitUnescapedAux]]
      rw [ih (some '|') ('|' :: '\\' :: acc)]
      simp
    · rw [show escapeMarkdownCell (c :: r) = c :: escapeMarkdownCell r by
        simp [escapeMarkdownCell, hc]]
      rw [show splitUnescapedAux prev acc (c :: escapeMarkdownCell r) =
          splitUnescapedAux (some c) (c :: acc) (escapeMarkdownCell r) by
        simp [splitUnescapedAux, hc]]
      rw [ih (some c) (c :: acc)]
      simp

/-- C8: escaping renders every pipe as `\|` and the parser inverts it: the
cell splitter never splits inside an escaped content (no unescaped pipe
remains) and un-escaping recovers the content exactly, for every content
string (in particular one containing a literal `|`); and the concrete content
`a | b` round-trips through `tableModelToMarkdown` and `parseMarkdownTable`
unchanged, rendered as `a \| b` in the markdown. -/
theorem claim_C8_escaped_pipes :
    (∀ content : Str,
      unescapePipes (escapeMarkdownCell content) = content ∧
      splitUnescaped (escapeMarkdownCell content) = [escapeMarkdownCell content]) ∧
    tableModelToMarkdown (createTable [createRow [createCell (strOf "Col")] true,
        createRow [createCell (strOf "a | b")] false] [ strLeft]) =
      strOf "| Col    |\n|--------|\n| a \\| b |" ∧
    (parseMarkdownTable (tableModelToMarkdown
        (createTable [createRow [createCell (strOf "Col")] true,
          createRow [createCell (strOf "a | b")] false] [ strLeft]))).map contentsOf =
      some [[ strOf "Col"], [ strOf "a | b"]] := by
  refine ⟨fun content => ⟨unescape_escape content, ?_⟩, by decide, by decide⟩
  unfold splitUnescaped
  rw [splitUnescapedAux_escape content none []]
  rfl

/-! ## Lemmas about the rowspan carry-over ledger -/

theorem takeWhile_len_le (p : Int → Bool) (l : List Int) : (l.takeWhile p).length ≤ l.length := by
  induction l with
  | nil => simp
  | cons x xs ih =>
    rw [List.takeWhile_cons]
    split
    · simpa using ih
    · simp

theorem trackGet_eq_zero_of_ge (tr : List Int) (i : Nat) (h : tr.length ≤ i) :
    trackGet tr i = 0 := by
  simp [trackGet, List.getD_eq_getElem?_getD, List.getElem?_eq_none h]

theorem trackGet_eq_getElem (tr : List Int) (i : Nat) (h : i < tr.length) :
    trackGet tr i = tr[i] := by
  simp [trackGet, List.getD_eq_getElem?_getD, List.getElem?_eq_getElem h]

theorem owed_lt_length (tr : List Int) (i : Nat) (h : owed tr i = true) : i < tr.length := by
  by_contra hc
  rw [owed, trackGet_eq_zero_of_ge tr i (by omega)] at h
  simp at h

theorem trackSet_length_of_lt (tr : List Int) (i : Nat) (v : Int) (h : i < tr.length) :
    (trackSet tr i v).length = tr.length := by
  simp [trackSet, h]

theorem trackGet_trackSet_self (tr : List Int) (i : Nat) (v : Int) (h : i < tr.length) :
    trackGet (trackSet tr i v) i = v := by
  simp [trackSet, h, trackGet, List.getD_eq_getElem?_getD, List.getElem?_set_self h]

theorem trackGet_trackSet_ne (tr : List Int) (i j : Nat) (v : Int) (hlt : i < tr.length)
    (h : i ≠ j) : trackGet (trackSet tr i v) j = trackGet tr j := by
  simp [trackSet, hlt, trackGet, List.getD_eq_getElem?_getD, List.getElem?_set_ne h]

theorem owedRun_le (tr : List Int) (colIdx : Nat) : owedRun tr colIdx ≤ tr.length - colIdx := by
  have h := takeWhile_len_le (fun v => decide (0 < v)) (tr.drop colIdx)
  rw [List.length_drop] at h
  exact h

theorem owedRun_zero_of_not_owed (tr : List Int) (i : Nat) (h : owed tr i = false) :
    owedRun tr i = 0 := by
  by_cases hlen : i < tr.length
  · rw [owedRun, List.drop_eq_getElem_cons hlen, List.takeWhile_cons]
    rw [owed, trackGet_eq_getElem tr i hlen] at h
    simp only [decide_eq_false_iff_not] at h
    rw [if_neg (by simpa using h)]
    rfl
  · rw [owedRun, List.drop_eq_nil_of_le (by omega)]
    rfl

theorem owedRun_succ_of_owed (tr : List Int) (i : Nat) (h : owed tr i = true) :
    owedRun tr i = owedRun tr (i + 1) + 1 := by
  have hlen := owed_lt_length tr i h
  rw [owed, trackGet_eq_getElem tr i hlen] at h
  rw [owedRun, List.drop_eq_getElem_cons hlen, List.takeWhile_cons, if_pos h]
  rfl

theorem owedRun_pos_entries (tr : List Int) :
    ∀ (d colIdx : Nat), d < owedRun tr colIdx → 0 < trackGet tr (colIdx + d) := by
  intro d
  induction d with
  | zero =>
    intro colIdx h
    by_cases ho : owed tr colIdx
    · rw [owed, decide_eq_true_iff] at ho
      simpa using ho
    · rw [owedRun_zero_of_not_owed tr colIdx (Bool.eq_false_iff.mpr ho)] at h
      omega
  | succ n ih =>
    intro colIdx h
    by_cases ho : owed tr colIdx
    · rw [owedRun_succ_of_owed tr colIdx ho] at h
      have := ih (colIdx + 1) (by omega)
      simpa [Nat.add_assoc, Nat.add_comm 1 n] using this
    · rw [owedRun_zero_of_not_owed tr colIdx (Bool.eq_false_iff.mpr ho)] at h
      omega

theorem owed_at_owedRun_end (tr : List Int) :
    ∀ (n colIdx : Nat), owedRun tr colIdx = n → owed tr (colIdx + n) = false := by
  intro n
  induction n with
  | zero =>
    intro colIdx h
    by_cases ho : owed tr colIdx
    · rw [owedRun_succ_of_owed tr colIdx ho] at h
      omega
    · simpa using Bool.eq_false_iff.mpr ho
  | succ m ih =>
    intro colIdx h
    by_cases ho : owed tr colIdx
    · rw [owedRun_succ_of_owed tr colIdx ho] at h
      have := ih (colIdx + 1) (by omega)
      simpa [Nat.add_assoc, Nat.add_comm 1 m] using this
    · rw [owedRun_zero_of_not_owed tr colIdx (Bool.eq_false_iff.mpr ho)] at h
      omega

theorem owedRun_trackSet_lt (tr : List Int) (j i : Nat) (v : Int) (hj : j < tr.length)
    (h : j < i) : owedRun (trackSet tr j v) i = owedRun tr i := by
  unfold owedRun
  rw [trackSet, if_pos hj, List.drop_set, if_pos h]

theorem decRun_length (n : Nat) :
    ∀ (tr : List Int) (i : Nat), i + n ≤ tr.length → (decRun tr i n).length = tr.length := by
  induction n with
  | zero => intro tr i _; rfl
  | succ m ih =>
    intro tr i h
    rw [decRun]
    rw [ih _ _ (by rw [trackSet_length_of_lt tr i _ (by omega)]; omega)]
    exact trackSet_length_of_lt tr i _ (by omega)

theorem trackGet_decRun (n : Nat) :
    ∀ (tr : List Int) (i j : Nat), i + n ≤ tr.length →
      trackGet (decRun tr i n) j =
        if i ≤ j ∧ j < i + n then trackGet tr j - 1 else trackGet tr j := by
  induction n with
  | zero =>
    intro tr i j _
    rw [decRun, if_neg (by omega)]
  | succ m ih =>
    intro tr i j h
    rw [decRun]
    rw [ih _ _ _ (by rw [trackSet_length_of_lt tr i _ (by omega)]; omega)]
    by_cases hij : i = j
    · subst hij
      rw [if_neg (by omega), if_pos (by omega)]
      exact trackGet_trackSet_self tr i _ (by omega)
    · rw [trackGet_trackSet_ne tr i j _ (by omega) hij]
      by_cases hin : i + 1 ≤ j ∧ j < i + 1 + m
      · rw [if_pos hin, if_pos (by omega)]
      · rw [if_neg hin, if_neg (by omega)]

theorem drainRun_closed (fuel : Nat) :
    ∀ (tr : List Int) (colIdx : Nat), owedRun tr colIdx ≤ fuel →
      drainRun fuel tr colIdx =
        (List.replicate (owedRun tr colIdx) (createCell []),
          decRun tr colIdx (owedRun tr colIdx), colIdx + owedRun tr colIdx) := by
  induction fuel with
  | zero =>
    intro tr colIdx h
    have h0 : owedRun tr colIdx = 0 := by omega
    rw [drainRun, h0]
    rfl
  | succ f ih =>
    intro tr colIdx h
    by_cases ho : owed tr colIdx
    · have hlen := owed_lt_length tr colIdx ho
      have hrec := owedRun_succ_of_owed tr colIdx ho
      have hset : owedRun (trackSet tr colIdx (trackGet tr colIdx - 1)) (colIdx + 1) =
          owedRun tr (colIdx + 1) :=
        owedRun_trackSet_lt tr colIdx (colIdx + 1) _ hlen (by omega)
      rw [drainRun, if_pos ho]
      rw [ih _ _ (by rw [hset]; omega)]
      rw [hset, hrec, List.replicate_succ]
      rw [show decRun tr colIdx (owedRun tr (colIdx + 1) + 1) =
        decRun (trackSet tr colIdx (trackGet tr colIdx - 1)) (colIdx + 1)
          (owedRun tr (colIdx + 1)) from rfl]
      rw [show colIdx + (owedRun tr (colIdx + 1) + 1) = colIdx + 1 + owedRun tr (colIdx + 1) by
        omega]
    · have h0 := owedRun_zero_of_not_owed tr colIdx (Bool.eq_false_iff.mpr ho)
      rw [drainRun, if_neg ho, h0]
      rfl

theorem drainRun_not_owed (fuel : Nat) (tr : List Int) (colIdx : Nat)
    (h : owed tr colIdx = false) : drainRun fuel tr colIdx = ([], tr, colIdx) := by
  cases fuel with
  | zero => rfl
  | succ f =>
    rw [drainRun, if_neg (by simp [h])]

theorem owedRun_le_length (tr : List Int) (colIdx : Nat) : owedRun tr colIdx ≤ tr.length := by
  have := owedRun_le tr colIdx
  omega

theorem owed_after_drain (tr : List Int) (colIdx : Nat) :
    owed (decRun tr colIdx (owedRun tr colIdx)) (colIdx + owedRun tr colIdx) = false := by
  by_cases hc : colIdx ≤ tr.length
  · have hin : colIdx + owedRun tr colIdx ≤ tr.length := by
      have := owedRun_le tr colIdx
      omega
    rw [owed, trackGet_decRun _ _ _ _ hin, if_neg (by omega)]
    exact owed_at_owedRun_end tr _ colIdx rfl
  · have h0 : owedRun tr colIdx = 0 := by
      have := owedRun_le tr colIdx
      omega
    rw [h0]
    show owed (decRun tr colIdx 0) (colIdx + 0) = false
    rw [show decRun tr colIdx 0 = tr from rfl, owed,
      trackGet_eq_zero_of_ge tr _ (by omega)]
    simp

/-! ## The per-row walk: filler emission and drain behavior -/

theorem processCells_nil_eq (pA : Bool) (tr : List Int) (colIdx : Nat) :
    processCells pA [] tr colIdx =
      ⟨List.replicate (owedRun tr colIdx) (createCell []),
        decRun tr colIdx (owedRun tr colIdx), []⟩ := by
  simp only [processCells]
  rw [drainRun_closed tr.length tr colIdx (owedRun_le_length tr colIdx)]

theorem processCells_cons_eq (pA : Bool) (cellEl : HtmlCell) (rest : List HtmlCell)
    (tr : List Int) (colIdx : Nat) :
    processCells pA (cellEl :: rest) tr colIdx =
      let e := consumeCell pA cellEl (decRun tr colIdx (owedRun tr colIdx))
        (colIdx + owedRun tr colIdx)
      let r := processCells pA rest e.tracker e.colIdx
      ⟨List.replicate (owedRun tr colIdx) (createCell []) ++ e.cells ++ r.cells,
        r.tracker, e.aligns ++ r.aligns⟩ := by
  simp only [processCells]
  rw [drainRun_closed tr.length tr colIdx (owedRun_le_length tr colIdx)]

/-- C3 counterexample: with the ledger `[1, 0, 1]` (owed at columns 0 and 2
but not at 1 — reachable from a first row `A(rowspan 2), B, C(rowspan 2)`),
processing a row with no cell elements emits only ONE filler and leaves the
owed entry at column 2 untouched, so not every remaining owed filler at
trailing columns is drained before the next row; in the full table the leaked
entry surfaces one row later: the third row `X, Y, Z` comes out as
`X, Y, "", Z`. -/
theorem claim_C3_counterexample :
    (processCells false [] [1, 0, 1] 0).cells = [createCell []] ∧
    (processCells false [] [1, 0, 1] 0).tracker = [0, 0, 1] ∧
    (0 : Int) < trackGet [1, 0, 1] 2 ∧
    trackGet (processCells false [] [1, 0, 1] 0).tracker 2 ≠ trackGet [1, 0, 1] 2 - 1 ∧
    (htmlTableToModel (HtmlTable.mk
      [⟨false, [⟨strOf "A", none, some (strOf "2"), none, none⟩,
        ⟨strOf "B", none, none, none, none⟩,
        ⟨strOf "C", none, some (strOf "2"), none, none⟩]⟩,
       ⟨false, []⟩,
       ⟨false, [⟨strOf "X", none, none, none, none⟩, ⟨strOf "Y", none, none, none, none⟩,
        ⟨strOf "Z", none, none, none, none⟩]⟩])).map contentsOf =
      some [[ strOf "A", strOf "B", strOf "C", strOf ""],
            [ strOf "", strOf "", strOf "", strOf ""],
            [ strOf "X", strOf "Y", strOf "", strOf "Z"]] := by decide

/-- C3 (amended): while walking a row, whenever the ledger owes a filler at
the current walk position the loop emits exactly the consecutive run of owed
fillers starting there — each owed column in the run gets an empty cell and a
decrement, without consuming a source cell element — and consumption resumes
at the first non-owed column; on a row whose cell elements are exhausted the
same consecutive-run drain happens and then the row ends: ledger entries
before the walk position or beyond the first non-owed column are left
untouched (an owed filler past a non-owed gap is NOT emitted for that row). -/
theorem claim_C3_drain_behavior (pushAligns : Bool) (tr : List Int) (colIdx : Nat) :
    processCells pushAligns [] tr colIdx =
      ⟨List.replicate (owedRun tr colIdx) (createCell []),
        decRun tr colIdx (owedRun tr colIdx), []⟩ ∧
    (∀ (cellEl : HtmlCell) (rest : List HtmlCell),
      processCells pushAligns (cellEl :: rest) tr colIdx =
        let e := consumeCell pushAligns cellEl (decRun tr colIdx (owedRun tr colIdx))
          (colIdx + owedRun tr colIdx)
        let r := processCells pushAligns rest e.tracker e.colIdx
        ⟨List.replicate (owedRun tr colIdx) (createCell []) ++ e.cells ++ r.cells,
          r.tracker, e.aligns ++ r.aligns⟩) ∧
    (∀ j, colIdx ≤ j → j < colIdx + owedRun tr colIdx →
      trackGet (decRun tr colIdx (owedRun tr colIdx)) j = trackGet tr j - 1 ∧
      0 < trackGet tr j) ∧
    (∀ j, j < colIdx ∨ colIdx + owedRun tr colIdx ≤ j →
      trackGet (decRun tr colIdx (owedRun tr colIdx)) j = trackGet tr j) ∧
    owed tr (colIdx + owedRun tr colIdx) = false := by
  refine ⟨processCells_nil_eq pushAligns tr colIdx,
    fun cellEl rest => processCells_cons_eq pushAligns cellEl rest tr colIdx, ?_, ?_, ?_⟩
  · intro j h1 h2
    have hpos : 0 < owedRun tr colIdx := by omega
    have hcol : colIdx < tr.length := by
      apply owed_lt_length
      by_contra hc
      rw [owedRun_zero_of_not_owed tr colIdx (Bool.eq_false_iff.mpr hc)] at hpos
      omega
    have hin : colIdx + owedRun tr colIdx ≤ tr.length := by
      have := owedRun_le tr colIdx
      omega
    constructor
    · rw [trackGet_decRun _ _ _ _ hin, if_pos ⟨h1, h2⟩]
    · have := owedRun_pos_entries tr (j - colIdx) colIdx (by omega)
      rwa [show colIdx + (j - colIdx) = j by omega] at this
  · intro j hj
    by_cases hc : colIdx ≤ tr.length
    · have hin : colIdx + owedRun tr colIdx ≤ tr.length := by
        have := owedRun_le tr colIdx
        omega
      rw [trackGet_decRun _ _ _ _ hin, if_neg (by omega)]
    · have h0 : owedRun tr colIdx = 0 := by
        have := owedRun_le tr colIdx
        omega
      rw [h0]
      rfl
  · exact owed_at_owedRun_end tr _ colIdx rfl

/-- Witness for C3 (amended): with ledger `[2, 0]`, the drain at column 0
decrements the entry from 2 to 1, and the entry was positive. -/
theorem claim_C3_witness :
    trackGet (decRun [2, 0] 0 (owedRun [2, 0] 0)) 0 = trackGet [2, 0] 0 - 1 ∧
    (0 : Int) < trackGet [2, 0] 0 :=
  (claim_C3_drain_behavior false [2, 0] 0).2.2.1 0 (by decide) (by decide)

/-! ## C9: degenerate colspan and rowspan attributes -/

theorem expandCell_cells_length (rv : Option Int) (av : Str) (pA : Bool) :
    ∀ (n : Nat) (content : Str) (tr : List Int) (colIdx : Nat),
      (expandCell rv av pA n content tr colIdx).cells.length = n := by
  intro n
  induction n with
  | zero => intro _ _ _; rfl
  | succ m ih =>
    intro content tr colIdx
    simp only [expandCell, List.length_cons]
    rw [ih]

theorem expandCell_tracker_const (rv : Option Int)
    (h : rv = none ∨ ∃ r, rv = some r ∧ r ≤ 1) (av : Str) (pA : Bool) :
    ∀ (n : Nat) (content : Str) (tr : List Int) (colIdx : Nat),
      (expandCell rv av pA n content tr colIdx).tracker = tr := by
  intro n
  induction n with
  | zero => intro _ _ _; rfl
  | succ m ih =>
    intro content tr colIdx
    rcases h with rfl | ⟨r, rfl, hr⟩
    · simp only [expandCell]
      exact ih [] tr (colIdx + 1)
    · simp only [expandCell, if_neg (by omega : ¬ 1 < r)]
      exact ih [] tr (colIdx + 1)

theorem consumeCell_zero_colspan (pA : Bool) (cellEl : HtmlCell) (tr : List Int) (colIdx : Nat)
    (h : cellColspanCount cellEl = 0) :
    consumeCell pA cellEl tr colIdx = ⟨[], tr, [], colIdx⟩ := by
  unfold consumeCell
  rw [h]
  rfl

theorem decRun_zero (tr : List Int) (i : Nat) : decRun tr i 0 = tr := rfl

theorem processCells_skip_cell (pA : Bool) (cellEl : HtmlCell) (rest : List HtmlCell)
    (tr : List Int) (colIdx : Nat) (h : cellColspanCount cellEl = 0) :
    processCells pA (cellEl :: rest) tr colIdx = processCells pA rest tr colIdx := by
  have hdrained : owedRun (decRun tr colIdx (owedRun tr colIdx))
      (colIdx + owedRun tr colIdx) = 0 :=
    owedRun_zero_of_not_owed _ _ (owed_after_drain tr colIdx)
  rw [processCells_cons_eq]
  simp only [consumeCell_zero_colspan pA cellEl _ _ h]
  cases rest with
  | nil =>
    rw [processCells_nil_eq, processCells_nil_eq, hdrained]
    simp [decRun_zero]
  | cons c' rest' =>
    rw [processCells_cons_eq pA c' rest' tr colIdx,
      processCells_cons_eq pA c' rest' (decRun tr colIdx (owedRun tr colIdx))
        (colIdx + owedRun tr colIdx), hdrained]
    simp [decRun_zero]

/-- C9: a source cell whose colspan attribute parses (via base-10 `parseInt`)
to `NaN`, zero or a negative value is consumed from the row but contributes
zero cells — its text content is silently dropped and the walk continues as
if the element were absent; and a rowspan attribute parsing to `NaN` or to a
value not greater than 1 produces no carry-over ledger entry: the tracker is
returned unchanged and the cell expands into exactly `colspan` cells, as for
rowspan 1. -/
theorem claim_C9_degenerate_spans (pushAligns : Bool) (cellEl : HtmlCell)
    (rest : List HtmlCell) (tr : List Int) (colIdx : Nat) :
    ((jsParseInt (attrOr1 cellEl.colspanAttr) = none ∨
        ∃ k, jsParseInt (attrOr1 cellEl.colspanAttr) = some k ∧ k ≤ 0) →
      cellColspanCount cellEl = 0 ∧
      processCells pushAligns (cellEl :: rest) tr colIdx =
        processCells pushAligns rest tr colIdx) ∧
    ((jsParseInt (attrOr1 cellEl.rowspanAttr) = none ∨
        ∃ r, jsParseInt (attrOr1 cellEl.rowspanAttr) = some r ∧ r ≤ 1) →
      (consumeCell pushAligns cellEl tr colIdx).tracker = tr ∧
      (consumeCell pushAligns cellEl tr colIdx).cells.length = cellColspanCount cellEl) := by
  constructor
  · intro hcol
    have hn : cellColspanCount cellEl = 0 := by
      rcases hcol with h | ⟨k, hk, hk0⟩
      · simp [cellColspanCount, h]
      · simp [cellColspanCount, hk, Int.toNat_eq_zero.mpr hk0]
    exact ⟨hn, processCells_skip_cell pushAligns cellEl rest tr colIdx hn⟩
  · intro hrow
    constructor
    · unfold consumeCell
      apply expandCell_tracker_const
      rcases hrow with h | ⟨r, hr, hr1⟩
      · exact Or.inl h
      · exact Or.inr ⟨r, hr, hr1⟩
    · unfold consumeCell
      exact expandCell_cells_length _ _ _ _ _ _ _

/-- Witness for C9: a cell with colspan attribute `"0"` is skipped outright,
and a cell with rowspan attribute `"x"` (`parseInt` gives `NaN`) leaves the
ledger unchanged. -/
theorem claim_C9_witness :
    (cellColspanCount ⟨strOf "W", some (strOf "0"), none, none, none⟩ = 0 ∧
      processCells false [⟨strOf "W", some (strOf "0"), none, none, none⟩] [] 0 =
        processCells false [] [] 0) ∧
    ((consumeCell false ⟨strOf "V", none, some (strOf "x"), none, none⟩ [] 0).tracker = [] ∧
      (consumeCell false ⟨strOf "V", none, some (strOf "x"), none, none⟩ [] 0).cells.length =
        cellColspanCount ⟨strOf "V", none, some (strOf "x"), none, none⟩) :=
  ⟨(claim_C9_degenerate_spans false ⟨strOf "W", some (strOf "0"), none, none, none⟩
      [] [] 0).1 (by decide),
   (claim_C9_degenerate_spans false ⟨strOf "V", none, some (strOf "x"), none, none⟩
      [] [] 0).2 (by decide)⟩

/-! ## C7: warnings of htmlToMarkdown -/

theorem countWarning_ne_merged (n : Nat) : countWarning n ≠ mergedWarning := by
  intro hc
  have h1 : (countWarning n).head? = some 'F' := rfl
  have h2 : mergedWarning.head? = some 'M' := rfl
  rw [hc, h2] at h1
  simp at h1

/-- C7: for every sanitizer result on which the conversion succeeds, the
warning list contains the table-count warning (which names the count) exactly
when the sanitizer reported more than one table, and contains the merged-cells
warning exactly once exactly when some source cell's colspan or rowspan
attribute parses to a value greater than 1 (and not at all otherwise);
warnings never block success — the conversion succeeds exactly when
`htmlTableToModel` yields a model. -/
theorem claim_C7_warnings (doc : SanitizedDoc) :
    ((htmlToMarkdown (some doc)).isSome = (htmlTableToModel doc.table).isSome) ∧
    (∀ (md : Str) (ws : List Str), htmlToMarkdown (some doc) = some (md, ws) →
      ((countWarning doc.tableCount ∈ ws ↔ 1 < doc.tableCount) ∧
       (ws.count mergedWarning = 1 ↔ (allCells doc.table).any cellHasMergeAttrs = true) ∧
       ((allCells doc.table).any cellHasMergeAttrs = false →
         ws.count mergedWarning = 0))) := by
  cases hm : htmlTableToModel doc.table with
  | none =>
    constructor
    · simp [htmlToMarkdown, hm]
    · intro md ws h
      rw [htmlToMarkdown.eq_def] at h
      simp only [hm] at h
      cases h
  | some model =>
    constructor
    · simp [htmlToMarkdown, hm]
    · intro md ws h
      rw [htmlToMarkdown.eq_def] at h
      simp only [hm, Option.some.injEq, Prod.mk.injEq] at h
      obtain ⟨-, hws⟩ := h
      subst hws
      by_cases h1 : 1 < doc.tableCount <;>
        by_cases h2 : (allCells doc.table).any cellHasMergeAttrs <;>
          simp [h1, h2, List.count_append, List.count_singleton, List.count_nil,
            List.count_cons, countWarning_ne_merged, Nat.lt_irrefl]

/-- Witness for C7 at a concrete sanitizer result: two tables reported and a
colspan-2 cell present, so both warnings appear (the merged one exactly once). -/
theorem claim_C7_witness :
    (countWarning 2 ∈
        ((htmlToMarkdown (some ⟨⟨[⟨false, [⟨strOf "M", some (strOf "2"), none, none, none⟩,
          ⟨strOf "S", none, none, none, none⟩]⟩]⟩, 2⟩)).getD ([], [])).2 ↔ 1 < 2) ∧
    ((((htmlToMarkdown (some ⟨⟨[⟨false, [⟨strOf "M", some (strOf "2"), none, none, none⟩,
          ⟨strOf "S", none, none, none, none⟩]⟩]⟩, 2⟩)).getD ([], [])).2).count mergedWarning = 1 ↔
      (allCells (⟨[⟨false, [⟨strOf "M", some (strOf "2"), none, none, none⟩,
          ⟨strOf "S", none, none, none, none⟩]⟩]⟩ : HtmlTable)).any cellHasMergeAttrs = true) ∧
    ((allCells (⟨[⟨false, [⟨strOf "M", some (strOf "2"), none, none, none⟩,
          ⟨strOf "S", none, none, none, none⟩]⟩]⟩ : HtmlTable)).any cellHasMergeAttrs = false →
      (((htmlToMarkdown (some ⟨⟨[⟨false, [⟨strOf "M", some (strOf "2"), none, none, none⟩,
          ⟨strOf "S", none, none, none, none⟩]⟩]⟩, 2⟩)).getD ([], [])).2).count mergedWarning = 0) :=
  (claim_C7_warnings ⟨⟨[⟨false, [⟨strOf "M", some (strOf "2"), none, none, none⟩,
      ⟨strOf "S", none, none, none, none⟩]⟩]⟩, 2⟩).2
    ((htmlToMarkdown (some ⟨⟨[⟨false, [⟨strOf "M", some (strOf "2"), none, none, none⟩,
      ⟨strOf "S", none, none, none, none⟩]⟩]⟩, 2⟩)).getD ([], [])).1
    ((htmlToMarkdown (some ⟨⟨[⟨false, [⟨strOf "M", some (strOf "2"), none, none, none⟩,
      ⟨strOf "S", none, none, none, none⟩]⟩]⟩, 2⟩)).getD ([], [])).2
    (by decide)

/-! ## C1: the Markdown → HTML → model round trip -/

theorem splitUnescapedAux_ne_nil (s : Str) :
    ∀ (prev : Option Char) (acc : Str), splitUnescapedAux prev acc s ≠ [] := by
  induction s with
  | nil => intro prev acc; simp [splitUnescapedAux]
  | cons c rest ih =>
    intro prev acc
    rw [splitUnescapedAux]
    split
    · simp
    · exact ih _ _

theorem parseCells_ne_nil (l : Str) : parseCells l ≠ [] := by
  unfold parseCells splitUnescaped
  intro h
  exact splitUnescapedAux_ne_nil _ none [] (List.map_eq_nil_iff.mp h)

theorem parse_structure (s : Str) (t : Table) (h : parseMarkdownTable s = some t) :
    ∃ (hls dls aligns : List Str),
      t = normalizeTable (createTable
        (hls.map (fun l => createRow ((parseCells l).map (fun c => createCell c)) true)
          ++ dls.map (fun l => createRow ((parseCells l).map (fun c => createCell c)) false))
        aligns) ∧ 1 ≤ hls.length + dls.length := by
  unfold parseMarkdownTable at h
  by_cases h2 : (linesOf s).length < 2
  · rw [if_pos h2] at h
    cases h
  · rw [if_neg h2] at h
    cases hf : findSeparator (linesOf s) with
    | none =>
      rw [hf] at h
      cases h
    | some trip =>
      obtain ⟨hls, sep, dls⟩ := trip
      rw [hf] at h
      simp only [Option.some.injEq] at h
      refine ⟨hls, dls, parseAlignments sep, h.symm, ?_⟩
      obtain ⟨hdec, -⟩ := findSeparator_some_decomp _ _ _ _ hf
      have := congrArg List.length hdec
      simp only [List.length_append, List.length_cons] at this
      omega

theorem padRow_unit (k : Int) (r : Row)
    (h : ∀ c ∈ r.cells, c.colspan = 1 ∧ c.rowspan = 1) :
    ∀ c ∈ (padRow k r).cells, c.colspan = 1 ∧ c.rowspan = 1 := by
  intro c hc
  simp only [padRow] at hc
  rcases List.mem_append.mp hc with hm | hm
  · exact h c hm
  · rw [List.eq_of_mem_replicate hm]
    exact ⟨rfl, rfl⟩

theorem filter_header_split (H D : List Row)
    (hH : ∀ r ∈ H, r.isHeader = true) (hD : ∀ r ∈ D, r.isHeader = false) :
    (H ++ D).filter (·.isHeader) = H ∧
    (H ++ D).filter (fun r => !r.isHeader) = D := by
  constructor
  · rw [List.filter_append, List.filter_eq_self.mpr hH,
      List.filter_eq_nil_iff.mpr (by intro r hr; simp [hD r hr]), List.append_nil]
  · rw [List.filter_append, List.filter_eq_nil_iff.mpr (by intro r hr; simp [hH r hr]),
      List.filter_eq_self.mpr (by intro r hr; simp [hD r hr]), List.nil_append]

theorem domCellsOf_attrs (aligns : List Str) (cells : List Cell) :
    ∀ (i : Nat), ∀ hc ∈ domCellsOf aligns i cells,
      hc.colspanAttr = none ∧ hc.rowspanAttr = none := by
  induction cells with
  | nil => intro i hc h; simp [domCellsOf] at h
  | cons c rest ih =>
    intro i hc h
    rcases List.mem_cons.mp h with rfl | hm
    · exact ⟨rfl, rfl⟩
    · exact ih (i + 1) hc hm

theorem domCellsOf_length (aligns : List Str) (cells : List Cell) :
    ∀ (i : Nat), (domCellsOf aligns i cells).length = cells.length := by
  induction cells with
  | nil => intro i; rfl
  | cons c rest ih =>
    intro i
    simp only [domCellsOf, List.length_cons]
    rw [ih]

theorem domCellsOf_textContent (aligns : List Str) (cells : List Cell) :
    ∀ (i : Nat), (domCellsOf aligns i cells).map (·.textContent) =
      cells.map (fun c => c.content) := by
  induction cells with
  | nil => intro i; rfl
  | cons c rest ih =>
    intro i
    simp only [domCellsOf, List.map_cons, domCellOf]
    rw [ih]

theorem owedRun_nil (colIdx : Nat) : owedRun [] colIdx = 0 := by
  simp [owedRun]

theorem processCells_plain (cells : List HtmlCell)
    (h : ∀ c ∈ cells, c.colspanAttr = none ∧ c.rowspanAttr = none) (pA : Bool) :
    ∀ (colIdx : Nat), processCells pA cells [] colIdx =
      ⟨cells.map (fun c => createCell (cellText c.textContent)), [],
        if pA then cells.map cellAlignVal else []⟩ := by
  induction cells with
  | nil =>
    intro colIdx
    rw [processCells_nil_eq, owedRun_nil]
    simp [decRun_zero]
  | cons c rest ih =>
    intro colIdx
    obtain ⟨hc1, hc2⟩ := h c (List.mem_cons_self _ _)
    have hcount : cellColspanCount c = 1 := by
      rw [cellColspanCount, hc1]
      decide
    have hcons : consumeCell pA c [] colIdx =
        ⟨[createCell (cellText c.textContent)], [],
          if pA then [cellAlignVal c] else [], colIdx + 1⟩ := by
      unfold consumeCell
      rw [hcount, hc2]
      show expandCell (some 1) (cellAlignVal c) pA 1 (cellText c.textContent) [] colIdx = _
      simp [expandCell]
    rw [processCells_cons_eq, owedRun_nil]
    simp only [decRun_zero, Nat.add_zero, hcons,
      ih (fun x hx => h x (List.mem_cons_of_mem _ hx)) (colIdx + 1)]
    cases pA <;> simp

theorem processRows_plain (tf : Bool) (rows : List HtmlRow) :
    (∀ hr ∈ rows, ∀ c ∈ hr.cells, c.colspanAttr = none ∧ c.rowspanAttr = none) →
    ∀ (i : Nat) (aSet : Bool),
      (processRows tf rows [] i aSet).1.map (fun r => r.cells.map (fun c => c.content)) =
        rows.map (fun hr => hr.cells.map (fun c => cellText c.textContent)) ∧
      (processRows tf rows [] i aSet).1.length = rows.length ∧
      (∀ r ∈ (processRows tf rows [] i aSet).1,
        ∀ c ∈ r.cells, c.colspan = 1 ∧ c.rowspan = 1) ∧
      (processRows tf rows [] i aSet).1.map (fun r => r.cells.length) =
        rows.map (fun hr => hr.cells.length) := by
  induction rows with
  | nil =>
    intro h i aSet
    refine ⟨rfl, rfl, ?_, rfl⟩
    intro r hr
    simp [processRows] at hr
  | cons hr rest ih =>
    intro h i aSet
    have hhead := h hr (List.mem_cons_self _ _)
    have htail := fun x hx => h x (List.mem_cons_of_mem _ hx)
    set pA := (hr.inThead || (tf && i == 0)) && !aSet with hpA
    have hrow := processCells_plain hr.cells hhead pA 0
    obtain ⟨ih1, ih2, ih3, ih4⟩ := ih htail (i + 1) (aSet || (hr.inThead || (tf && i == 0)))
    have hstep : processRows tf (hr :: rest) [] i aSet =
        (createRow (hr.cells.map (fun c => createCell (cellText c.textContent)))
            (hr.inThead || (tf && i == 0)) ::
          (processRows tf rest [] (i + 1) (aSet || (hr.inThead || (tf && i == 0)))).1,
         (if pA then hr.cells.map cellAlignVal else []) ++
          (processRows tf rest [] (i + 1) (aSet || (hr.inThead || (tf && i == 0)))).2) := by
      rw [processRows]
      rw [← hpA, hrow]
    rw [hstep]
    refine ⟨?_, ?_, ?_, ?_⟩
    · simp only [List.map_cons, createRow, ih1, List.map_map]
      rfl
    · simp only [List.length_cons, ih2]
    · intro r hrm
      rcases List.mem_cons.mp hrm with rfl | hm
      · intro cc hcc
        simp only [createRow] at hcc
        rcases List.mem_map.mp hcc with ⟨x, -, rfl⟩
        exact ⟨rfl, rfl⟩
      · exact ih3 r hm
    · simp only [List.map_cons, createRow, ih4, List.length_map]

theorem normalize_of_uniform (t : Table) (k : Nat) (hne : t.rows ≠ [])
    (hlen : ∀ r ∈ t.rows, r.cells.length = k)
    (hunit : ∀ r ∈ t.rows, ∀ c ∈ r.cells, c.colspan = 1) :
    getColumnCount t = (k : Int) ∧ (normalizeTable t).rows = t.rows := by
  have hsum : ∀ r ∈ t.rows, rowColspanSum r = (k : Int) := by
    intro r hr
    rw [rowColspanSum, colsum_of_unit r.cells (hunit r hr), hlen r hr]
  have hk : getColumnCount t = (k : Int) := by
    rw [getColumnCount_eq_foldl, foldl_max_const t.rows (k : Int) 0 hne hsum]
    exact max_eq_right (by positivity)
  refine ⟨hk, ?_⟩
  rw [normalizeTable_rows, hk]
  calc t.rows.map (padRow (k : Int))
      = t.rows.map id := List.map_congr_left (fun r hr => padRow_eq_self _ _ (hsum r hr))
    _ = t.rows := List.map_id _

theorem domRow_contents (a : List Str) (r : Row) :
    (domCellsOf a 0 r.cells).map (fun c => cellText c.textContent) =
      r.cells.map (fun c => cellText c.content) := by
  calc (domCellsOf a 0 r.cells).map (fun c => cellText c.textContent)
      = ((domCellsOf a 0 r.cells).map (fun c => c.textContent)).map cellText := by
        rw [List.map_map]
        rfl
    _ = (r.cells.map (fun c => c.content)).map cellText := by
        rw [domCellsOf_textContent]
    _ = r.cells.map (fun c => cellText c.content) := by
        rw [List.map_map]
        rfl

/-- Core of the round trip: re-parsing the DOM image of the generated HTML of
a uniform (normalized, unit-span) table preserves the row count, the column
count and the whitespace-collapsed cell contents. -/
theorem htmlTableToModel_generated (t : Table) (kN : Nat) (hne : t.rows ≠ [])
    (hlen : ∀ r ∈ t.rows, r.cells.length = kN)
    (hsplit : ∃ H D, t.rows = H ++ D ∧ (∀ r ∈ H, r.isHeader = true) ∧
      (∀ r ∈ D, r.isHeader = false)) :
    ∃ t₂, htmlTableToModel (generatedHtmlDom t) = some t₂ ∧
      t₂.rows.length = t.rows.length ∧
      getColumnCount t₂ = (kN : Int) ∧
      contentsOf t₂ = (contentsOf t).map (fun row => row.map cellText) := by
  obtain ⟨H, D, hHD, hH, hD⟩ := hsplit
  have hfil := filter_header_split H D hH hD
  have hdomrows : (generatedHtmlDom t).rows =
      H.map (fun r => HtmlRow.mk true (domCellsOf t.alignments 0 r.cells)) ++
      D.map (fun r => HtmlRow.mk false (domCellsOf t.alignments 0 r.cells)) := by
    show ((t.rows.filter (·.isHeader)).map _ ++
      (t.rows.filter (fun r => !r.isHeader)).map _) = _
    rw [hHD, hfil.1, hfil.2]
  have hdomlen : (generatedHtmlDom t).rows.length = t.rows.length := by
    rw [hdomrows, hHD]
    simp
  have hattrs : ∀ hr ∈ (generatedHtmlDom t).rows, ∀ c ∈ hr.cells,
      c.colspanAttr = none ∧ c.rowspanAttr = none := by
    intro hr hm
    rw [hdomrows] at hm
    rcases List.mem_append.mp hm with hm | hm <;>
      · obtain ⟨r, -, rfl⟩ := List.mem_map.mp hm
        intro c hc
        exact domCellsOf_attrs t.alignments r.cells 0 c hc
  have hdomcellen : (generatedHtmlDom t).rows.map (fun hr => hr.cells.length) =
      t.rows.map (fun r => r.cells.length) := by
    rw [hdomrows, hHD, List.map_append, List.map_append, List.map_map, List.map_map]
    congr 1 <;>
      · apply List.map_congr_left
        intro r _
        exact domCellsOf_length t.alignments r.cells 0
  have hdomcontent : (generatedHtmlDom t).rows.map
        (fun hr => hr.cells.map (fun c => cellText c.textContent)) =
      t.rows.map (fun r => r.cells.map (fun c => cellText c.content)) := by
    rw [hdomrows, hHD, List.map_append, List.map_append, List.map_map, List.map_map]
    congr 1 <;>
      · apply List.map_congr_left
        intro r _
        exact domRow_contents t.alignments r
  have hemp : (generatedHtmlDom t).rows.isEmpty = false := by
    cases hd : (generatedHtmlDom t).rows with
    | nil =>
      exfalso
      apply hne
      have := hdomlen
      rw [hd] at this
      exact List.eq_nil_of_length_eq_zero this.symm
    | cons a b => rfl
  obtain ⟨p1, p2, p3, p4⟩ := processRows_plain (!(generatedHtmlDom t).rows.any (·.inThead))
    (generatedHtmlDom t).rows hattrs 0 false
  have hmodel : htmlTableToModel (generatedHtmlDom t) =
      some (normalizeTable (createTable
        (processRows (!(generatedHtmlDom t).rows.any (·.inThead))
          (generatedHtmlDom t).rows [] 0 false).1
        (processRows (!(generatedHtmlDom t).rows.any (·.inThead))
          (generatedHtmlDom t).rows [] 0 false).2)) := by
    simp only [htmlTableToModel, hemp, Bool.false_eq_true, if_false]
  have hpr_len : (processRows (!(generatedHtmlDom t).rows.any (·.inThead))
      (generatedHtmlDom t).rows [] 0 false).1.length = t.rows.length := p2.trans hdomlen
  have hpr_ne : (processRows (!(generatedHtmlDom t).rows.any (·.inThead))
      (generatedHtmlDom t).rows [] 0 false).1 ≠ [] := by
    intro hnil
    apply hne
    rw [hnil] at hpr_len
    exact List.eq_nil_of_length_eq_zero hpr_len.symm
  have hpr_cellen : ∀ r ∈ (processRows (!(generatedHtmlDom t).rows.any (·.inThead))
      (generatedHtmlDom t).rows [] 0 false).1, r.cells.length = kN := by
    intro r hr
    have hmem : r.cells.length ∈ (processRows (!(generatedHtmlDom t).rows.any (·.inThead))
        (generatedHtmlDom t).rows [] 0 false).1.map (fun r => r.cells.length) :=
      List.mem_map_of_mem _ hr
    rw [p4, hdomcellen] at hmem
    obtain ⟨r', hr', he⟩ := List.mem_map.mp hmem
    rw [← he]
    exact hlen r' hr'
  have hpr_unit : ∀ r ∈ (processRows (!(generatedHtmlDom t).rows.any (·.inThead))
      (generatedHtmlDom t).rows [] 0 false).1, ∀ c ∈ r.cells, c.colspan = 1 :=
    fun r hr c hc => (p3 r hr c hc).1
  obtain ⟨hgcc0, hrows_norm⟩ := normalize_of_uniform
    (createTable (processRows (!(generatedHtmlDom t).rows.any (·.inThead))
        (generatedHtmlDom t).rows [] 0 false).1
      (processRows (!(generatedHtmlDom t).rows.any (·.inThead))
        (generatedHtmlDom t).rows [] 0 false).2) kN hpr_ne hpr_cellen hpr_unit
  refine ⟨_, hmodel, ?_, ?_, ?_⟩
  · rw [hrows_norm]
    exact hpr_len
  · rw [getColumnCount_normalize]
    exact hgcc0
  · unfold contentsOf
    rw [hrows_norm]
    show (processRows (!(generatedHtmlDom t).rows.any (·.inThead))
        (generatedHtmlDom t).rows [] 0 false).1.map (fun r => r.cells.map (fun c => c.content)) = _
    rw [p1, hdomcontent, List.map_map]
    apply List.map_congr_left
    intro r _
    show r.cells.map (fun c => cellText c.content) = (r.cells.map (fun c => c.content)).map cellText
    rw [List.map_map]
    rfl

theorem parse_output_uniform (s : Str) (t : Table) (h : parseMarkdownTable s = some t) :
    t.rows ≠ [] ∧
    (∀ r ∈ t.rows, r.cells.length = (getColumnCount t).toNat) ∧
    (∃ H D, t.rows = H ++ D ∧ (∀ r ∈ H, r.isHeader = true) ∧
      (∀ r ∈ D, r.isHeader = false)) ∧
    (((getColumnCount t).toNat : Int) = getColumnCount t) := by
  obtain ⟨hls, dls, aligns, ht, hlen1⟩ := parse_structure s t h
  have hunit0 : ∀ r ∈ (hls.map (fun l => createRow ((parseCells l).map
        (fun c => createCell c)) true) ++
      dls.map (fun l => createRow ((parseCells l).map (fun c => createCell c)) false)),
      ∀ c ∈ r.cells, c.colspan = 1 ∧ c.rowspan = 1 := by
    intro r hr c hc
    rcases List.mem_append.mp hr with hm | hm <;>
      · obtain ⟨l, -, rfl⟩ := List.mem_map.mp hm
        obtain ⟨x, -, rfl⟩ := List.mem_map.mp hc
        exact ⟨rfl, rfl⟩
  have hne0 : ∀ r ∈ (hls.map (fun l => createRow ((parseCells l).map
        (fun c => createCell c)) true) ++
      dls.map (fun l => createRow ((parseCells l).map (fun c => createCell c)) false)),
      1 ≤ r.cells.length := by
    intro r hr
    rcases List.mem_append.mp hr with hm | hm <;>
      · obtain ⟨l, -, rfl⟩ := List.mem_map.mp hm
        show 1 ≤ ((parseCells l).map (fun c => createCell c)).length
        rw [List.length_map]
        cases hp : parseCells l with
        | nil => exact absurd hp (parseCells_ne_nil l)
        | cons a b => simp
  have hrows0_ne : (hls.map (fun l => createRow ((parseCells l).map
        (fun c => createCell c)) true) ++
      dls.map (fun l => createRow ((parseCells l).map (fun c => createCell c)) false)) ≠ [] := by
    intro hnil
    have := congrArg List.length hnil
    simp only [List.length_append, List.length_map, List.length_nil] at this
    omega
  have ht0rows : (createTable (hls.map (fun l => createRow ((parseCells l).map
        (fun c => createCell c)) true) ++
      dls.map (fun l => createRow ((parseCells l).map (fun c => createCell c)) false))
      aligns).rows = (hls.map (fun l => createRow ((parseCells l).map
        (fun c => createCell c)) true) ++
      dls.map (fun l => createRow ((parseCells l).map (fun c => createCell c)) false)) := rfl
  have hsum0 : ∀ r ∈ (hls.map (fun l => createRow ((parseCells l).map
        (fun c => createCell c)) true) ++
      dls.map (fun l => createRow ((parseCells l).map (fun c => createCell c)) false)),
      rowColspanSum r = (r.cells.length : Int) := by
    intro r hr
    exact colsum_of_unit r.cells (fun c hc => (hunit0 r hr c hc).1)
  have hk0 : 0 ≤ getColumnCount (createTable (hls.map (fun l => createRow ((parseCells l).map
        (fun c => createCell c)) true) ++
      dls.map (fun l => createRow ((parseCells l).map (fun c => createCell c)) false)) aligns) :=
    getColumnCount_nonneg _
  have hkt : getColumnCount t = getColumnCount (createTable (hls.map
        (fun l => createRow ((parseCells l).map (fun c => createCell c)) true) ++
      dls.map (fun l => createRow ((parseCells l).map (fun c => createCell c)) false)) aligns) := by
    rw [ht]
    exact getColumnCount_normalize _
  have htrows : t.rows = (hls.map (fun l => createRow ((parseCells l).map
        (fun c => createCell c)) true) ++
      dls.map (fun l => createRow ((parseCells l).map (fun c => createCell c)) false)).map
      (padRow (getColumnCount (createTable (hls.map (fun l => createRow ((parseCells l).map
        (fun c => createCell c)) true) ++
      dls.map (fun l => createRow ((parseCells l).map (fun c => createCell c)) false)) aligns))) := by
    rw [ht]
    exact normalizeTable_rows _
  refine ⟨?_, ?_, ?_, ?_⟩
  · intro hnil
    rw [htrows] at hnil
    exact hrows0_ne (List.map_eq_nil_iff.mp hnil)
  · intro r hr
    rw [htrows] at hr
    obtain ⟨r0, hr0, rfl⟩ := List.mem_map.mp hr
    rw [hkt]
    exact padRow_length_of_unit _ r0
      (rowColspanSum_le_getColumnCount _ r0 hr0)
      (fun c hc => (hunit0 r0 hr0 c hc).1)
  · refine ⟨(hls.map (fun l => createRow ((parseCells l).map (fun c => createCell c)) true)).map
        (padRow (getColumnCount (createTable (hls.map (fun l => createRow ((parseCells l).map
          (fun c => createCell c)) true) ++
        dls.map (fun l => createRow ((parseCells l).map (fun c => createCell c)) false)) aligns))),
      (dls.map (fun l => createRow ((parseCells l).map (fun c => createCell c)) false)).map
        (padRow (getColumnCount (createTable (hls.map (fun l => createRow ((parseCells l).map
          (fun c => createCell c)) true) ++
        dls.map (fun l => createRow ((parseCells l).map (fun c => createCell c)) false)) aligns))),
      ?_, ?_, ?_⟩
    · rw [htrows, List.map_append]
    · intro r hr
      obtain ⟨r0, hr0, rfl⟩ := List.mem_map.mp hr
      obtain ⟨l, -, rfl⟩ := List.mem_map.mp hr0
      rfl
    · intro r hr
      obtain ⟨r0, hr0, rfl⟩ := List.mem_map.mp hr
      obtain ⟨l, -, rfl⟩ := List.mem_map.mp hr0
      rfl
  · rw [hkt]
    exact Int.toNat_of_nonneg hk0

/-- C1 counterexample: the well-formed table `"| a  b |\n|---|"` parses to the
cell content `"a  b"`, but after generating HTML and re-parsing with
`htmlTableToModel` the recovered content is `"a b"` — `htmlTableToModel`
collapses whitespace runs, so the cell contents are NOT equal. -/
theorem claim_C1_counterexample :
    (parseMarkdownTable (strOf "| a  b |\n|---|")).map contentsOf =
      some [[ strOf "a  b"]] ∧
    ((parseMarkdownTable (strOf "| a  b |\n|---|")).bind
      (fun t => htmlTableToModel (generatedHtmlDom t))).map contentsOf =
      some [[ strOf "a b"]] ∧
    strOf "a b" ≠ strOf "a  b" := by decide

/-- C1 (amended): for every markdown text accepted by `parseMarkdownTable`,
generating HTML with `tableModelToHtml` and re-parsing its DOM with
`htmlTableToModel` succeeds and yields a model with the same row count, the
same column count, and cell contents equal to the originals after collapsing
whitespace runs to single spaces (`cellText`); contents with no internal
whitespace runs are recovered exactly. -/
theorem claim_C1_roundtrip (s : Str) (t : Table) (h : parseMarkdownTable s = some t) :
    ∃ t₂, htmlTableToModel (generatedHtmlDom t) = some t₂ ∧
      t₂.rows.length = t.rows.length ∧
      getColumnCount t₂ = getColumnCount t ∧
      contentsOf t₂ = (contentsOf t).map (fun row => row.map cellText) := by
  obtain ⟨hne, hlen, hsplit, hcast⟩ := parse_output_uniform s t h
  obtain ⟨t₂, h1, h2, h3, h4⟩ := htmlTableToModel_generated t (getColumnCount t).toNat
    hne hlen hsplit
  exact ⟨t₂, h1, h2, by rw [h3, hcast], h4⟩

/-- Witness for C1 (amended) at a concrete two-row markdown table. -/
theorem claim_C1_witness :
    ∃ t₂, htmlTableToModel (generatedHtmlDom
        ((parseMarkdownTable (strOf "| A | B |\n|---|:-:|\n| 1 | 2 |")).getD
          (createTable [] []))) = some t₂ ∧
      t₂.rows.length = ((parseMarkdownTable (strOf "| A | B |\n|---|:-:|\n| 1 | 2 |")).getD
        (createTable [] [])).rows.length ∧
      getColumnCount t₂ = getColumnCount ((parseMarkdownTable
        (strOf "| A | B |\n|---|:-:|\n| 1 | 2 |")).getD (createTable [] [])) ∧
      contentsOf t₂ = (contentsOf ((parseMarkdownTable
        (strOf "| A | B |\n|---|:-:|\n| 1 | 2 |")).getD (createTable [] []))).map
        (fun row => row.map cellText) :=
  claim_C1_roundtrip (strOf "| A | B |\n|---|:-:|\n| 1 | 2 |")
    ((parseMarkdownTable (strOf "| A | B |\n|---|:-:|\n| 1 | 2 |")).getD (createTable [] []))
    (by decide)
